import Mathlib

/-!
Trigger worker (`service/trigger/worker.go`)

A shallow embedding of the minute-bucket trigger worker: the bucket-key
codec (`getStartMinute`, `getBucket`), the per-sub-window handler
(`handleBatch`) and the orchestrator (`Worker.Work`).

Conventions of the embedding

* A Go `string` is a `List Char`; `strings.Split(s, "_")` is `splitUnderscore`.
* `time.Time` is a count of nanoseconds (`Int`); a `time.Duration` is a 64-bit count
  of nanoseconds, so the interval `time.Duration(gap) * time.Second` wraps around
  (`gapDuration`).
* A Go `error` is a value of `Err`; `nil` is `none`.
* Collaborators that live outside this package (`utils.GetStartMinute`, the task
  query, the pool and the executor) are fields of `Env`.
* Goroutines: the handlers are numbered in the order they are started. A schedule
  says what the goroutines do before each tick: the first goroutine, whose closure
  reads the variable `startTime`, evaluates its two arguments, and handlers return.
  The properties of `Work` are proved for every schedule.
-/

namespace Trigger

/-! ## Errors, strings and `strconv.Atoi` -/

/-- Go `error` values that reach the worker. -/
inductive Err where
  /-- Value of `fmt.Errorf("invalid format of msg key: %s", slice)`. -/
  | invalidFormat (key : List Char)
  /-- A `strconv.NumError` wrapping `strconv.ErrSyntax`. -/
  | numSyntax (s : List Char)
  /-- A `strconv.NumError` wrapping `strconv.ErrRange`. -/
  | numRange (s : List Char)
  /-- Any error produced by a collaborator (time parser, task query, pool, executor). -/
  | other (msg : String)
  deriving DecidableEq, Repr

deriving instance DecidableEq for Except

/-- Behaviour of `strings.Split(s, "_")`: the pieces between consecutive underscores. -/
def splitUnderscore : List Char → List (List Char)
  | [] => [[]]
  | c :: cs =>
    match splitUnderscore cs with
    | [] => [[c]]
    | p :: ps => if c = '_' then [] :: p :: ps else (c :: p) :: ps

/-- Value of an ASCII decimal digit (`ch -= '0'; ch > 9` rejects everything else). -/
def digitVal (c : Char) : Option Nat :=
  if 48 ≤ c.toNat ∧ c.toNat ≤ 57 then some (c.toNat - 48) else none

/-- Digit loop of `strconv.ParseUint(s, 10, 64)`: the first character that is not a
digit is a syntax error, the first step that leaves 64 bits is a range error. -/
def parseUintLoop (s0 : List Char) : List Char → Nat → Except Err Nat
  | [], n => .ok n
  | c :: cs, n =>
    match digitVal c with
    | none => .error (.numSyntax s0)
    | some d =>
      if n * 10 + d < 2 ^ 64 then parseUintLoop s0 cs (n * 10 + d)
      else .error (.numRange s0)

/-- Behaviour of `strconv.Atoi` with a 64-bit `int`: an optional sign `+` or `-`, then at
least one decimal digit, the value within `[-2^63, 2^63 - 1]`. -/
def Atoi (s : List Char) : Except Err Int :=
  match s with
  | [] => .error (.numSyntax s)
  | c :: cs =>
    let neg := decide (c = '-')
    let body := if c = '-' ∨ c = '+' then cs else s
    if body = [] then .error (.numSyntax s)
    else
      match parseUintLoop s body 0 with
      | .error e => .error e
      | .ok un =>
        if neg = false ∧ 2 ^ 63 ≤ un then .error (.numRange s)
        else if neg = true ∧ 2 ^ 63 < un then .error (.numRange s)
        else .ok (if neg then -(un : Int) else (un : Int))

/-! ## Data model and collaborators -/

/-- A `time.Time`, counted in nanoseconds. -/
abbrev Time := Int

/-- The fields of `vo.Task` the worker reads: the timer id and the scheduled run time
(`RunTimer.UnixMilli()`). -/
structure Task where
  TimerID : Nat
  RunTimer : Int
  deriving DecidableEq, Repr

/-- Modelled from the spec: `utils.UnionTimerIDUnix` is not part of these sources; the spec
describes its result as a composite identifier made of the timer id and the scheduled run
time, which is kept here as the pair of the two. -/
def UnionTimerIDUnix (timerID : Nat) (unixMilli : Int) : Nat × Int := (timerID, unixMilli)

/-- Everything `Worker` reaches through its fields and imports. -/
structure Env where
  /-- The helper `utils.GetStartMinute`, applied to the first part of the key. -/
  GetStartMinute : List Char → Except Err Time
  /-- The configured `conf.ZRangeGapSeconds`, a signed number of seconds (a Go `int` of 64
  bits; its declaration is in package `conf`, outside these sources). -/
  ZRangeGapSeconds : Int
  /-- The task query `w.task.GetTasksByTime(ctx, key, bucket, start, end)`. -/
  GetTasksByTime : List Char → Int → Time → Time → Except Err (List Task)
  /-- The answer of `w.pool.Submit` to the `j`-th submission (counted from 0) of the handler
  whose window starts at `start`; `none` means the unit of work was accepted. -/
  Submit : Time → Nat → Option Err
  /-- The result of `w.executor.Work(ctx, id)`. -/
  ExecutorWork : Nat × Int → Option Err

/-! ## Bucket-key codec -/

/-- Embedding of `getStartMinute`. -/
def getStartMinute (env : Env) (slice : List Char) : Except Err Time :=
  match splitUnderscore slice with
  | [p0, _] => env.GetStartMinute p0
  | _ => .error (.invalidFormat slice)

/-- Embedding of `getBucket`; the integer Go returns next to a non-nil error is dropped. -/
def getBucket (slice : List Char) : Except Err Int :=
  match splitUnderscore slice with
  | [_, p1] => Atoi p1
  | _ => .error (.invalidFormat slice)

/-! ## The sub-window handler -/

/-- What one call of `handleBatch` did. -/
structure BatchResult where
  /-- The returned error (`none` for `nil`). -/
  err : Option Err
  /-- Whether `GetTasksByTime` was called. -/
  queried : Bool
  /-- The tasks whose unit of work was handed to `pool.Submit`, in call order. -/
  submitted : List Task
  /-- The tasks whose unit of work the pool accepted. -/
  accepted : List Task
  /-- The executor failures written to the log by the accepted units of work. -/
  logged : List Err
  deriving DecidableEq, Repr

/-- The unit of work submitted for one task: call the executor, log a failure. -/
def runUnit (env : Env) (t : Task) : List Err :=
  match env.ExecutorWork (UnionTimerIDUnix t.TimerID t.RunTimer) with
  | some e => [e]
  | none => []

/-- The submission loop of `handleBatch`, `j` being the number of submissions made so far. -/
def submitTasks (env : Env) (start : Time) : List Task → Nat → BatchResult
  | [], _ => { err := none, queried := true, submitted := [], accepted := [], logged := [] }
  | t :: ts, j =>
    match env.Submit start j with
    | some e => { err := some e, queried := true, submitted := [t], accepted := [], logged := [] }
    | none =>
      let r := submitTasks env start ts (j + 1)
      { r with submitted := t :: r.submitted, accepted := t :: r.accepted,
               logged := runUnit env t ++ r.logged }

/-- Embedding of `Worker.handleBatch`. The slice `timerIDs`, which only feeds a log line that
is commented out, is left out. -/
def handleBatch (env : Env) (key : List Char) (start end_ : Time) : BatchResult :=
  match getBucket key with
  | .error e => { err := some e, queried := false, submitted := [], accepted := [], logged := [] }
  | .ok bucket =>
    match env.GetTasksByTime key bucket start end_ with
    | .error e => { err := some e, queried := true, submitted := [], accepted := [], logged := [] }
    | .ok tasks => submitTasks env start tasks 0

/-! ## The orchestrator -/

/-- Wrap-around of 64-bit signed arithmetic: the value of `x` as an `int64`. -/
def wrapInt64 (x : Int) : Int :=
  (x + 9223372036854775808) % 18446744073709551616 - 9223372036854775808

/-- The constant `time.Second`, in nanoseconds. -/
def Second : Int := 1000000000

/-- The constant `time.Minute`, in nanoseconds. -/
def Minute : Int := 60000000000

/-- The interval `time.Duration(conf.ZRangeGapSeconds) * time.Second`: a product of `int64`
nanosecond counts, which wraps around. -/
def gapDuration (gap : Int) : Int := wrapInt64 (gap * Second)

/-- How a call of `Work` ends. -/
inductive Outcome where
  /-- The call `time.NewTicker` panics on a non-positive interval. -/
  | panicked
  /-- The call `wg.Wait()` never returns: a handler is stuck sending on a full notifier. -/
  | blocked
  /-- The tick loop is still running when the step budget of the embedding is used up. -/
  | unfinished
  /-- The call returns `err`. -/
  | returned (err : Option Err)
  deriving DecidableEq, Repr

/-- Observable summary of one call of `Work`. -/
structure Run where
  outcome : Outcome
  /-- Number of invocations of `ack`. -/
  acks : Nat
  /-- The sub-windows the started handlers are called with, in the order the handlers were
  started: first the goroutine of lines 66-75, then those of the tick loop. -/
  dispatched : List (Time × Time)
  /-- Whether the call returned from inside the tick loop. -/
  early : Bool
  deriving DecidableEq, Repr

/-- Modelled from the spec: `concurrency.SafeChan` is not part of these sources. The spec
describes it as an error slot with the capacity given at construction, in which a producer
waits only while no slot is free. For a slot of capacity `cap` that holds `buf`, oldest value
first, this is `notifier.Put(e)`: the new content, or `none` when the producer has to wait. -/
def SafeChanPut (cap : Nat) (buf : List Err) (e : Err) : Option (List Err) :=
  if buf.length < cap then some (buf ++ [e]) else none

/-- Modelled from the spec: the single non-blocking read of the error slot, which `Work`
writes as a `select` on `notifier.GetChan()` with a `default` branch: the oldest recorded
value, if there is one. -/
def SafeChanPeek (buf : List Err) : Option Err := buf.head?

/-- What the goroutines do between two ticks. The handlers are numbered in the order they
are started: 0 is the goroutine of lines 66-75, `k` the one started at the `k`-th tick. -/
inductive Event where
  /-- Goroutine 0 evaluates `startTime`, the third argument of its call of `handleBatch`;
  its closure has no parameter, so this reads the variable that line 84 assigns. -/
  | arg1
  /-- Goroutine 0 evaluates `startTime.Add(...)`, the fourth argument, reading the same
  variable again. -/
  | arg2
  /-- The call of `handleBatch` in goroutine `id` returns. -/
  | done (id : Nat)
  deriving DecidableEq, Repr

/-- State of one call of `Work` between two ticks. -/
structure St where
  /-- Content of the buffered channel behind `notifier`, oldest first. -/
  notifier : List Err
  /-- Numbers of the handlers that were started and have not completed. -/
  running : List Nat
  /-- Current value of the variable `startTime`. -/
  startTime : Time
  /-- The third argument of goroutine 0, once evaluated. -/
  arg1 : Option Time
  /-- The fourth argument of goroutine 0, once evaluated. -/
  arg2 : Option Time
  /-- The windows of the goroutines started in the tick loop, which receive `startTime` by
  value, in the order they were started. -/
  later : List (Time × Time)
  deriving DecidableEq, Repr

/-- The window handler `id` is called with, once it is determined. -/
def St.window (st : St) : Nat → Option (Time × Time)
  | 0 =>
    match st.arg1, st.arg2 with
    | some a, some b => some (a, b)
    | _, _ => none
  | k + 1 => st.later[k]?

/-- The windows of all started handlers; an argument goroutine 0 has not evaluated yet is
read off the current `startTime`, which no longer changes once `Work` has returned. -/
def St.scanned (st : St) (d : Int) : List (Time × Time) :=
  (st.arg1.getD st.startTime, st.arg2.getD (st.startTime + d)) :: st.later

/-- One event. When `handleBatch` returns in a running handler, a returned error is sent to
the notifier (`notifier.Put(err)`), which needs a free slot; then `wg.Done()`. A handler that
is not running or has not got its arguments yet is left alone, a handler facing a full
notifier stays stuck. -/
def step (res : Time × Time → Option Err) (d : Int) (cap : Nat) (st : St) : Event → St
  | .arg1 =>
    match st.arg1 with
    | none => { st with arg1 := some st.startTime }
    | some _ => st
  | .arg2 =>
    match st.arg1, st.arg2 with
    | some _, none => { st with arg2 := some (st.startTime + d) }
    | _, _ => st
  | .done id =>
    if id ∈ st.running then
      match st.window id with
      | none => st
      | some w =>
        match res w with
        | none => { st with running := st.running.filter (fun r => r ≠ id) }
        | some e =>
          match SafeChanPut cap st.notifier e with
          | some buf => { st with notifier := buf, running := st.running.filter (fun r => r ≠ id) }
          | none => st
    else st

/-- The part of `Work` after the tick loop: `wg.Wait()`, the last look at the notifier, `ack`.
The goroutines go on in the order `rest` gives; what it leaves out follows: goroutine 0
evaluates its arguments, then the handlers still running return in the order they were
started. -/
def joinAll (res : Time × Time → Option Err) (d : Int) (cap : Nat) (rest : List (List Event))
    (st : St) : Run :=
  let st1 := (rest.flatten ++ (Event.arg1 :: Event.arg2 :: st.running.map Event.done)).foldl
    (step res d cap) st
  if st1.running = [] then
    match SafeChanPeek st1.notifier with
    | some e =>
      { outcome := .returned (some e), acks := 0, dispatched := st1.scanned d, early := false }
    | none =>
      { outcome := .returned none, acks := 1, dispatched := st1.scanned d, early := false }
  else { outcome := .blocked, acks := 0, dispatched := st1.scanned d, early := false }

/-- The loop `for range ticker.C`. The head of `sched` lists what the goroutines do before
the coming tick, in order. -/
def tickLoop (res : Time × Time → Option Err) (d : Int) (cap : Nat) (endTime : Time) :
    Nat → List (List Event) → St → Run
  | 0, _, st =>
    { outcome := .unfinished, acks := 0, dispatched := st.scanned d, early := false }
  | fuel + 1, sched, st =>
    let st1 := (sched.headD []).foldl (step res d cap) st
    match SafeChanPeek st1.notifier with
    | some e =>
      { outcome := .returned (some e), acks := 0, dispatched := st1.scanned d, early := true }
    | none =>
      let st2 := { st1 with startTime := st1.startTime + d }
      if endTime ≤ st2.startTime then joinAll res d cap sched.tail st2
      else
        tickLoop res d cap endTime fuel sched.tail
          { st2 with running := st2.running ++ [st2.later.length + 1],
                     later := st2.later ++ [(st2.startTime, st2.startTime + d)] }

/-- Capacity of the notifier, `int(time.Minute/d) + 1` for the interval `d`, which is positive
where the capacity is computed. -/
def notifierCap (d : Int) : Nat := (Minute / d).toNat + 1

/-- The error the handler called with window `w` returns. -/
def handlerErr (env : Env) (key : List Char) (w : Time × Time) : Option Err :=
  (handleBatch env key w.1 w.2).err

/-- Embedding of `Worker.Work`. The schedule `sched` resolves the interleaving of the
goroutines with the ticks: its `k`-th entry lists what they do before tick `k+1`. The step
budget `time.Minute/d + 1` covers every tick of the loop. -/
def Work (env : Env) (sched : List (List Event)) (minuteBucketKey : List Char) : Run :=
  match getStartMinute env minuteBucketKey with
  | .error e => { outcome := .returned (some e), acks := 0, dispatched := [], early := false }
  | .ok startTime =>
    let d := gapDuration env.ZRangeGapSeconds
    if d ≤ 0 then
      { outcome := .panicked, acks := 0, dispatched := [], early := false }
    else
      tickLoop (handlerErr env minuteBucketKey) d (notifierCap d) (startTime + Minute)
        ((Minute / d).toNat + 1) sched
        { notifier := [], running := [0], startTime := startTime, arg1 := none, arg2 := none,
          later := [] }

/-- The dispatched sub-windows whose handler calls the task query. -/
def Run.queries (env : Env) (key : List Char) (r : Run) : List (Time × Time) :=
  r.dispatched.filter (fun w => (handleBatch env key w.1 w.2).queried)

/-! ## Decimal numerals, for stating what the codec accepts -/

/-- Value of a string of decimal digits read after the number `n`. -/
def decValue (n : Nat) (ds : List Char) : Nat :=
  ds.foldl (fun a c => a * 10 + (c.toNat - 48)) n

/-- The string `s` is a decimal numeral of value `v` with an optional sign: at least one
decimal digit, preceded by nothing, by `+` or by `-`. -/
def SignedDecimal (s : List Char) (v : Int) : Prop :=
  ∃ ds : List Char, ds ≠ [] ∧ (∀ c ∈ ds, (digitVal c).isSome = true) ∧
    ((s = ds ∧ v = (decValue 0 ds : Int)) ∨ (s = '+' :: ds ∧ v = (decValue 0 ds : Int)) ∨
      (s = '-' :: ds ∧ v = -(decValue 0 ds : Int)))

/-- The character of a decimal digit. -/
def digitChar (d : Nat) : Char := Char.ofNat (48 + d)

/-- Decimal digits of `n`, most significant first, at most `fuel` of them. -/
def formatUint : Nat → Nat → List Char
  | 0, _ => []
  | fuel + 1, n =>
    if n < 10 then [digitChar n] else formatUint fuel (n / 10) ++ [digitChar (n % 10)]

/-- Modelled from the spec: the encode path of the key is on the producer side, outside these
sources; the spec gives the second part of the key as the decimal rendering of the bucket
index. This is that rendering for a 64-bit `int` (what `strconv.Itoa` prints): a minus sign
for a negative number, then the digits without leading zeros. -/
def Itoa (v : Int) : List Char :=
  if v < 0 then '-' :: formatUint 20 v.natAbs else formatUint 20 v.natAbs

/-- Modelled from the spec: the key is re-encoded as the rendering of the minute, an
underscore, and the decimal rendering of the bucket index; the rendering `fmt` of the minute
is the inverse of `utils.GetStartMinute`, which is outside these sources. -/
def encodeKey (fmt : Time → List Char) (m : Time) (b : Int) : List Char :=
  fmt m ++ '_' :: Itoa b

/-- A test environment: the first part of the key is read as a decimal count of nanoseconds,
the query returns `tasks` for every window, the pool accepts everything. -/
def envOk (gap : Int) (tasks : List Task) : Env where
  GetStartMinute := fun s => Atoi s
  ZRangeGapSeconds := gap
  GetTasksByTime := fun _ _ _ _ => .ok tasks
  Submit := fun _ _ => none
  ExecutorWork := fun _ => none

/-- A test environment whose task query fails, with `e`, exactly for the window that starts
at `bad`, and whose pool rejects, with `e`, every submission numbered `rej` or more. -/
def envFail (gap : Int) (tasks : List Task) (bad : Time) (rej : Nat) (e : Err) : Env where
  GetStartMinute := fun s => Atoi s
  ZRangeGapSeconds := gap
  GetTasksByTime := fun _ _ s _ => if s = bad then .error e else .ok tasks
  Submit := fun _ j => if rej ≤ j then some e else none
  ExecutorWork := fun _ => none

/-- The `n` consecutive windows of length `d` that start at `m`: the `i`-th is
`[m + i*d, m + (i+1)*d)`. -/
def windows (m : Time) (d : Int) (n : Nat) : List (Time × Time) :=
  (List.range n).map (fun (i : Nat) => (m + (i : Int) * d, m + ((i : Int) + 1) * d))

/-! ## Invariant of the orchestrator state -/

/-- Goroutine 0 has evaluated both arguments of its call. -/
def Resolved (st : St) : Prop := st.arg1.isSome = true ∧ st.arg2.isSome = true

/-- What holds of the state between two ticks. -/
structure Good (res : Time × Time → Option Err) (cap : Nat) (st : St) : Prop where
  room : st.notifier.length + st.running.length ≤ st.later.length + 1
  bound : st.later.length + 1 ≤ cap
  known : ∀ id ∈ st.running, id ≤ st.later.length
  sound : ∀ e ∈ st.notifier, ∃ id w, st.window id = some w ∧ res w = some e
  complete : ∀ id, id ≤ st.later.length →
    id ∈ st.running ∨ (∃ w, st.window id = some w ∧ res w = none) ∨ st.notifier ≠ []

/-- What holds of a finished call that got past key parsing and the ticker: the handlers
started in the tick loop have the windows `1, ..., n-1` of the minute, and the call returns
nil with one `ack` when every handler succeeded, an error of some handler otherwise. -/
def RunOK (res : Time × Time → Option Err) (m : Time) (d : Int) (r : Run) : Prop :=
  (∃ (n : Nat) (w0 : Time × Time), r.dispatched = w0 :: (windows m d n).tail ∧ 1 ≤ n ∧
      ((n : Int) - 1) * d < Minute ∧ (r.early = false → Minute ≤ (n : Int) * d)) ∧
  ((r.outcome = .returned none ∧ r.acks = 1 ∧ r.early = false ∧
      ∀ w ∈ r.dispatched, res w = none) ∨
   (∃ e, r.outcome = .returned (some e) ∧ r.acks = 0 ∧ ∃ w ∈ r.dispatched, res w = some e))

theorem length_filter_ne_lt (l : List Nat) (s : Nat) (h : s ∈ l) :
    (l.filter (fun r => r ≠ s)).length < l.length := by
  induction l with
  | nil => simp at h
  | cons a t ih =>
    by_cases ha : a = s
    · have h1 : (List.filter (fun r => decide (r ≠ s)) (a :: t)) =
          List.filter (fun r => decide (r ≠ s)) t := by
        rw [List.filter_cons]; simp [ha]
      have h2 := List.length_filter_le (fun r => decide (r ≠ s)) t
      rw [h1, List.length_cons]
      omega
    · have hs : s ∈ t := by
        rcases List.mem_cons.mp h with h1 | h1
        · exact absurd h1.symm ha
        · exact h1
      have h1 : (List.filter (fun r => decide (r ≠ s)) (a :: t)) =
          a :: List.filter (fun r => decide (r ≠ s)) t := by
        rw [List.filter_cons]; simp [ha]
      have h2 := ih hs
      rw [h1, List.length_cons, List.length_cons]
      omega

theorem window_congr {st st1 : St} (h1 : st1.arg1 = st.arg1) (h2 : st1.arg2 = st.arg2)
    (hl : st1.later = st.later) (id : Nat) : st1.window id = st.window id := by
  cases id with
  | zero => simp only [St.window, h1, h2]
  | succ k => simp only [St.window, hl]

theorem Good.of_same {res : Time × Time → Option Err} {cap : Nat} {st st1 : St}
    (h : Good res cap st) (hn : st1.notifier = st.notifier) (hr : st1.running = st.running)
    (hl : st1.later = st.later)
    (hw : ∀ id w, st.window id = some w → st1.window id = some w) : Good res cap st1 := by
  refine ⟨?_, ?_, ?_, ?_, ?_⟩
  · rw [hn, hr, hl]; exact h.room
  · rw [hl]; exact h.bound
  · rw [hr, hl]; exact h.known
  · rw [hn]
    intro e he
    obtain ⟨id, w, h1, h2⟩ := h.sound e he
    exact ⟨id, w, hw id w h1, h2⟩
  · rw [hl, hr, hn]
    intro id hid
    rcases h.complete id hid with h1 | ⟨w, h1, h2⟩ | h1
    · exact Or.inl h1
    · exact Or.inr (Or.inl ⟨w, hw id w h1, h2⟩)
    · exact Or.inr (Or.inr h1)

theorem window_of_running {res : Time × Time → Option Err} {cap : Nat} {st : St}
    (h : Good res cap st) (hres : Resolved st) {id : Nat} (hid : id ∈ st.running) :
    ∃ w, st.window id = some w := by
  cases id with
  | zero =>
    obtain ⟨h1, h2⟩ := hres
    obtain ⟨a, ha⟩ := Option.isSome_iff_exists.mp h1
    obtain ⟨b, hb⟩ := Option.isSome_iff_exists.mp h2
    exact ⟨(a, b), by simp only [St.window, ha, hb]⟩
  | succ k =>
    have hk := h.known (k + 1) hid
    have hlt : k < st.later.length := by omega
    exact ⟨st.later[k], by simp only [St.window]; exact List.getElem?_eq_getElem hlt⟩

theorem step_good {res : Time × Time → Option Err} {d : Int} {cap : Nat} {st : St}
    (ev : Event) (h : Good res cap st) :
    Good res cap (step res d cap st ev) ∧
      (step res d cap st ev).later = st.later ∧
      (step res d cap st ev).startTime = st.startTime ∧
      (∀ id w, st.window id = some w → (step res d cap st ev).window id = some w) ∧
      (∀ r ∈ (step res d cap st ev).running, r ∈ st.running) ∧
      (Resolved st → Resolved (step res d cap st ev)) := by
  have hsame : ∀ st1 : St, st1 = st →
      Good res cap st1 ∧ st1.later = st.later ∧ st1.startTime = st.startTime ∧
      (∀ id w, st.window id = some w → st1.window id = some w) ∧
      (∀ r ∈ st1.running, r ∈ st.running) ∧ (Resolved st → Resolved st1) := by
    intro st1 e
    subst e
    exact ⟨h, rfl, rfl, fun _ _ hw => hw, fun _ hr => hr, fun hr => hr⟩
  cases ev with
  | arg1 =>
    cases ha : st.arg1 with
    | some a => exact hsame _ (by simp only [step, ha])
    | none =>
      have e : step res d cap st Event.arg1 = { st with arg1 := some st.startTime } := by
        simp only [step, ha]
      rw [e]
      have hw : ∀ id w, st.window id = some w →
          ({ st with arg1 := some st.startTime } : St).window id = some w := by
        intro id w hw
        cases id with
        | zero => simp [St.window, ha] at hw
        | succ k => exact hw
      refine ⟨h.of_same rfl rfl rfl hw, rfl, rfl, hw, fun _ hr => hr, ?_⟩
      rintro ⟨h1, _⟩
      rw [ha] at h1
      cases h1
  | arg2 =>
    cases ha : st.arg1 with
    | none => exact hsame _ (by simp only [step, ha])
    | some a =>
      cases hb : st.arg2 with
      | some b => exact hsame _ (by simp only [step, ha, hb])
      | none =>
        have e : step res d cap st Event.arg2 = { st with arg2 := some (st.startTime + d) } := by
          simp only [step, ha, hb]
        rw [e]
        have hw : ∀ id w, st.window id = some w →
            ({ st with arg2 := some (st.startTime + d) } : St).window id = some w := by
          intro id w hw
          cases id with
          | zero => simp [St.window, ha, hb] at hw
          | succ k => exact hw
        refine ⟨h.of_same rfl rfl rfl hw, rfl, rfl, hw, fun _ hr => hr, ?_⟩
        rintro ⟨_, h2⟩
        rw [hb] at h2
        cases h2
  | done id =>
    by_cases hs : id ∈ st.running
    · have hlt := length_filter_ne_lt st.running id hs
      have hroom := h.room
      have hbound := h.bound
      have hmemf : ∀ r ∈ st.running.filter (fun r => r ≠ id), r ∈ st.running ∧ r ≠ id := by
        intro r hr
        simpa using List.mem_filter.mp hr
      cases hwin : st.window id with
      | none => exact hsame _ (by simp only [step, hs, hwin, if_true])
      | some w =>
        cases hres : res w with
        | none =>
          have e : step res d cap st (Event.done id)
              = { st with running := st.running.filter (fun r => r ≠ id) } := by
            simp only [step, hs, hwin, hres, if_true]
          rw [e]
          refine ⟨⟨?_, hbound, ?_, ?_, ?_⟩, rfl, rfl, ?_, fun r hr => (hmemf r hr).1, fun hr => hr⟩
          · show st.notifier.length + (st.running.filter (fun r => r ≠ id)).length
              ≤ st.later.length + 1
            omega
          · intro r hr
            exact h.known r (hmemf r hr).1
          · intro e he
            obtain ⟨i, v, h1, h2⟩ := h.sound e he
            exact ⟨i, v, by rw [← h1]; exact window_congr rfl rfl rfl i, h2⟩
          · intro i hi
            by_cases hii : i = id
            · right; left
              exact ⟨w, by rw [hii, ← hwin]; exact window_congr rfl rfl rfl id, hres⟩
            · rcases h.complete i hi with h1 | ⟨v, h1, h2⟩ | h1
              · left
                exact List.mem_filter.mpr ⟨h1, by simpa using hii⟩
              · right; left
                exact ⟨v, by rw [← h1]; exact window_congr rfl rfl rfl i, h2⟩
              · right; right; exact h1
          · intro i v hv
            rw [← hv]; exact window_congr rfl rfl rfl i
        | some e =>
          have hfree : st.notifier.length < cap := by
            have := List.length_pos_of_mem hs
            omega
          have hput : SafeChanPut cap st.notifier e = some (st.notifier ++ [e]) := by
            unfold SafeChanPut
            rw [if_pos hfree]
          have e2 : step res d cap st (Event.done id)
              = { st with notifier := st.notifier ++ [e],
                          running := st.running.filter (fun r => r ≠ id) } := by
            simp only [step, hs, hwin, hres, hput, if_true]
          rw [e2]
          refine ⟨⟨?_, hbound, ?_, ?_, ?_⟩, rfl, rfl, ?_, fun r hr => (hmemf r hr).1, fun hr => hr⟩
          · show (st.notifier ++ [e]).length + (st.running.filter (fun r => r ≠ id)).length
              ≤ st.later.length + 1
            simp only [List.length_append, List.length_singleton]
            omega
          · intro r hr
            exact h.known r (hmemf r hr).1
          · intro e1 he1
            have he1 : e1 ∈ st.notifier ++ [e] := he1
            rcases List.mem_append.mp he1 with h1 | h1
            · obtain ⟨i, v, h2, h3⟩ := h.sound e1 h1
              exact ⟨i, v, by rw [← h2]; exact window_congr rfl rfl rfl i, h3⟩
            · have : e1 = e := by simpa using h1
              subst this
              exact ⟨id, w, by rw [← hwin]; exact window_congr rfl rfl rfl id, hres⟩
          · intro i _
            right; right
            show st.notifier ++ [e] ≠ []
            simp
          · intro i v hv
            rw [← hv]; exact window_congr rfl rfl rfl i
    · exact hsame _ (by simp only [step, hs, if_false])

theorem step_done_removes {res : Time × Time → Option Err} {d : Int} {cap : Nat} {st : St}
    (id : Nat) (h : Good res cap st) (hres : Resolved st) :
    id ∉ (step res d cap st (.done id)).running := by
  by_cases hs : id ∈ st.running
  · obtain ⟨w, hw⟩ := window_of_running h hres hs
    have hnot : id ∉ st.running.filter (fun r => r ≠ id) := by
      intro hmem
      have := (List.mem_filter.mp hmem).2
      simp at this
    cases hr : res w with
    | none =>
      have e : step res d cap st (Event.done id)
          = { st with running := st.running.filter (fun r => r ≠ id) } := by
        simp only [step, hs, hw, hr, if_true]
      rw [e]
      exact hnot
    | some e =>
      have hfree : st.notifier.length < cap := by
        have := List.length_pos_of_mem hs
        have := h.room
        have := h.bound
        omega
      have hput : SafeChanPut cap st.notifier e = some (st.notifier ++ [e]) := by
        unfold SafeChanPut
        rw [if_pos hfree]
      have e2 : step res d cap st (Event.done id)
          = { st with notifier := st.notifier ++ [e],
                      running := st.running.filter (fun r => r ≠ id) } := by
        simp only [step, hs, hw, hr, hput, if_true]
      rw [e2]
      exact hnot
  · have e : step res d cap st (Event.done id) = st := by
      simp only [step, hs, if_false]
    rw [e]
    exact hs

theorem foldl_step_good {res : Time × Time → Option Err} {d : Int} {cap : Nat}
    (l : List Event) :
    ∀ st : St, Good res cap st →
      Good res cap (l.foldl (step res d cap) st) ∧
      (l.foldl (step res d cap) st).later = st.later ∧
      (l.foldl (step res d cap) st).startTime = st.startTime ∧
      (∀ id w, st.window id = some w → (l.foldl (step res d cap) st).window id = some w) ∧
      (∀ r ∈ (l.foldl (step res d cap) st).running, r ∈ st.running) ∧
      (Resolved st → Resolved (l.foldl (step res d cap) st)) := by
  induction l with
  | nil =>
    intro st h
    exact ⟨h, rfl, rfl, fun _ _ hw => hw, fun _ hr => hr, fun hr => hr⟩
  | cons a t ih =>
    intro st h
    obtain ⟨h1, hl1, hs1, hw1, hr1, hv1⟩ := step_good (d := d) a h
    obtain ⟨h2, hl2, hs2, hw2, hr2, hv2⟩ := ih (step res d cap st a) h1
    rw [List.foldl_cons]
    exact ⟨h2, hl2.trans hl1, hs2.trans hs1, fun id w hw => hw2 id w (hw1 id w hw),
      fun r hr => hr1 r (hr2 r hr), fun hv => hv2 (hv1 hv)⟩

theorem foldl_done_removes {res : Time × Time → Option Err} {d : Int} {cap : Nat}
    (ids : List Nat) :
    ∀ st : St, Good res cap st → Resolved st →
      ∀ r ∈ ((ids.map Event.done).foldl (step res d cap) st).running, r ∈ st.running ∧ r ∉ ids := by
  induction ids with
  | nil =>
    intro st _ _ r hr
    exact ⟨hr, by simp⟩
  | cons a t ih =>
    intro st h hv r hr
    obtain ⟨h1, _, _, _, hr1, hv1⟩ := step_good (d := d) (Event.done a) h
    have hrem := step_done_removes (d := d) a h hv
    rw [List.map_cons, List.foldl_cons] at hr
    obtain ⟨hra, hrt⟩ := ih (step res d cap st (Event.done a)) h1 (hv1 hv) r hr
    refine ⟨hr1 r hra, ?_⟩
    intro hmem
    rcases List.mem_cons.mp hmem with h3 | h3
    · exact hrem (h3 ▸ hra)
    · exact hrt h3

theorem resolved_after_args (res : Time × Time → Option Err) (d : Int) (cap : Nat) (st : St) :
    Resolved (step res d cap (step res d cap st Event.arg1) Event.arg2) := by
  cases ha : st.arg1 with
  | none =>
    cases hb : st.arg2 with
    | none => simp [step, Resolved, ha, hb]
    | some b => simp [step, Resolved, ha, hb]
  | some a =>
    cases hb : st.arg2 with
    | none => simp [step, Resolved, ha, hb]
    | some b => simp [step, Resolved, ha, hb]

theorem window_mem_scanned {st : St} (d : Int) {id : Nat} {w : Time × Time}
    (h : st.window id = some w) : w ∈ st.scanned d := by
  cases id with
  | zero =>
    cases ha : st.arg1 with
    | none => simp [St.window, ha] at h
    | some a =>
      cases hb : st.arg2 with
      | none => simp [St.window, ha, hb] at h
      | some b =>
        have : w = (a, b) := by simpa [St.window, ha, hb] using h.symm
        rw [this]
        simp [St.scanned, ha, hb]
  | succ k =>
    have h1 : st.later[k]? = some w := h
    exact List.mem_cons_of_mem _ (List.getElem?_mem h1)

theorem scanned_window {st : St} (d : Int) (hv : Resolved st) {w : Time × Time}
    (h : w ∈ st.scanned d) : ∃ id, id ≤ st.later.length ∧ st.window id = some w := by
  obtain ⟨h1, h2⟩ := hv
  obtain ⟨a, ha⟩ := Option.isSome_iff_exists.mp h1
  obtain ⟨b, hb⟩ := Option.isSome_iff_exists.mp h2
  have hs : st.scanned d = (a, b) :: st.later := by simp [St.scanned, ha, hb]
  rw [hs] at h
  rcases List.mem_cons.mp h with h3 | h3
  · exact ⟨0, Nat.zero_le _, by rw [h3]; simp only [St.window, ha, hb]⟩
  · obtain ⟨k, hk, hkw⟩ := List.getElem_of_mem h3
    exact ⟨k + 1, by omega, by
      show st.later[k]? = some w
      rw [List.getElem?_eq_getElem hk, hkw]⟩

theorem windows_succ (m : Time) (d : Int) (n : Nat) :
    windows m d (n + 1) = windows m d n ++ [(m + (n : Int) * d, m + ((n : Int) + 1) * d)] := by
  simp [windows, List.range_succ]

theorem windows_length (m : Time) (d : Int) (n : Nat) : (windows m d n).length = n := by
  simp [windows]

theorem mem_windows {m : Time} {d : Int} {n : Nat} {w : Time × Time} :
    w ∈ windows m d n ↔ ∃ i : Nat, i < n ∧ w = (m + (i : Int) * d, m + ((i : Int) + 1) * d) := by
  simp only [windows, List.mem_map, List.mem_range]
  constructor
  · rintro ⟨i, hi, rfl⟩
    exact ⟨i, hi, rfl⟩
  · rintro ⟨i, hi, rfl⟩
    exact ⟨i, hi, rfl⟩

theorem windows_eq_cons (m : Time) (d : Int) (n : Nat) (hn : 1 ≤ n) :
    windows m d n = (m, m + d) :: (windows m d n).tail := by
  obtain ⟨k, rfl⟩ : ∃ k, n = k + 1 := ⟨n - 1, by omega⟩
  simp [windows, List.range_succ_eq_map]

theorem windows_tail_succ (m : Time) (d : Int) (k : Nat) :
    (windows m d (k + 1 + 1)).tail
      = (windows m d (k + 1)).tail ++ [(m + ((k + 1 : Nat) : Int) * d, m + (((k + 1 : Nat) : Int) + 1) * d)] := by
  rw [windows_succ m d (k + 1), List.tail_append_of_ne_nil]
  intro h
  have := windows_length m d (k + 1)
  rw [h] at this
  simp at this

theorem mem_of_peek {buf : List Err} {e : Err} (h : SafeChanPeek buf = some e) : e ∈ buf := by
  cases buf with
  | nil => cases h
  | cons a t =>
    have : a = e := Option.some.inj h
    rw [← this]
    exact List.mem_cons_self _ _

theorem nil_of_peek {buf : List Err} (h : SafeChanPeek buf = none) : buf = [] := by
  cases buf with
  | nil => rfl
  | cons a t => cases h

theorem joinAll_spec {res : Time × Time → Option Err} {cap : Nat} (m : Time) (d : Int)
    (rest : List (List Event)) (st : St) (h : Good res cap st) (n : Nat)
    (hl : st.later = (windows m d n).tail) (hn : 1 ≤ n) (hlt : ((n : Int) - 1) * d < Minute)
    (hge : Minute ≤ (n : Int) * d) : RunOK res m d (joinAll res d cap rest st) := by
  have hsplit : (rest.flatten ++ (Event.arg1 :: Event.arg2 :: st.running.map Event.done)).foldl
      (step res d cap) st
      = (st.running.map Event.done).foldl (step res d cap)
          (step res d cap (step res d cap (rest.flatten.foldl (step res d cap) st) Event.arg1)
            Event.arg2) := by
    rw [List.foldl_append, List.foldl_cons, List.foldl_cons]
  obtain ⟨hA, hlA, _, _, hrA, _⟩ := foldl_step_good (d := d) rest.flatten st h
  obtain ⟨hB, hlB, _, _, hrB, _⟩ :=
    step_good (d := d) Event.arg1 hA
  obtain ⟨hC, hlC, _, _, hrC, _⟩ := step_good (d := d) Event.arg2 hB
  have hvC := resolved_after_args res d cap (rest.flatten.foldl (step res d cap) st)
  obtain ⟨hD, hlD, _, _, _, hvD⟩ := foldl_step_good (d := d) (st.running.map Event.done) _ hC
  have hrem := foldl_done_removes (d := d) st.running _ hC hvC
  have hnil : ((rest.flatten ++ (Event.arg1 :: Event.arg2 :: st.running.map Event.done)).foldl
      (step res d cap) st).running = [] := by
    rw [hsplit]
    apply List.eq_nil_iff_forall_not_mem.mpr
    intro r hr
    obtain ⟨h1, h2⟩ := hrem r hr
    exact h2 (hrA r (hrB r (hrC r h1)))
  have hlater : ((rest.flatten ++ (Event.arg1 :: Event.arg2 :: st.running.map Event.done)).foldl
      (step res d cap) st).later = (windows m d n).tail := by
    rw [hsplit, hlD, hlC, hlB, hlA, hl]
  have hvE := hvD hvC
  rw [← hsplit] at hD hvE
  clear hrem hsplit hrA hrB hrC hA hB hC hlA hlB hlC hlD hvC hvD
  unfold joinAll
  generalize (rest.flatten ++ (Event.arg1 :: Event.arg2 :: st.running.map Event.done)).foldl
      (step res d cap) st = st1 at hD hvE hnil hlater ⊢
  have hdisp : ∃ w0, st1.scanned d = w0 :: (windows m d n).tail :=
    ⟨_, by unfold St.scanned; rw [hlater]⟩
  obtain ⟨w0, hw0⟩ := hdisp
  simp only [hnil, if_true]
  split
  · rename_i e hnot
    refine ⟨⟨n, w0, hw0, hn, hlt, fun _ => hge⟩, Or.inr ⟨e, rfl, rfl, ?_⟩⟩
    obtain ⟨id, w, h1, h2⟩ := hD.sound e (mem_of_peek hnot)
    exact ⟨w, window_mem_scanned d h1, h2⟩
  · rename_i hnot
    refine ⟨⟨n, w0, hw0, hn, hlt, fun _ => hge⟩, Or.inl ⟨rfl, rfl, rfl, ?_⟩⟩
    intro w hw
    obtain ⟨id, hid, hwin⟩ := scanned_window d hvE hw
    rcases hD.complete id hid with h2 | ⟨v, h2, h3⟩ | h2
    · rw [hnil] at h2; simp at h2
    · rw [hwin] at h2
      rw [Option.some.inj h2]
      exact h3
    · exact absurd (nil_of_peek hnot) h2

theorem tickLoop_spec (res : Time × Time → Option Err) (d : Int) (hd : 0 < d) (m : Time) :
    ∀ (fuel : Nat) (sched : List (List Event)) (k : Nat) (st : St),
      (Minute / d).toNat + 1 ≤ k + fuel → (k : Int) * d < Minute →
      st.later = (windows m d (k + 1)).tail → st.startTime = m + (k : Int) * d →
      Good res (notifierCap d) st →
      RunOK res m d (tickLoop res d (notifierCap d) (m + Minute) fuel sched st) := by
  have hq0 : 0 ≤ Minute / d := Int.ediv_nonneg (by decide) (le_of_lt hd)
  intro fuel
  induction fuel with
  | zero =>
    intro sched k st hf hk _ _ _
    exfalso
    have h1 : Minute / d + 1 ≤ (k : Int) := by
      have : (((Minute / d).toNat + 1 : Nat) : Int) ≤ (k : Int) := by exact_mod_cast hf
      push_cast at this
      rw [Int.toNat_of_nonneg hq0] at this
      exact this
    have h2 : Minute < (Minute / d + 1) * d := Int.lt_ediv_add_one_mul_self _ hd
    have h3 : (Minute / d + 1) * d ≤ (k : Int) * d := mul_le_mul_of_nonneg_right h1 (le_of_lt hd)
    linarith
  | succ fuel ih =>
    intro sched k st hf hk hl hs h
    obtain ⟨h1, hl1, hs1, hw1, hr1, _⟩ := foldl_step_good (d := d) (sched.headD []) st h
    unfold tickLoop
    generalize (sched.headD []).foldl (step res d (notifierCap d)) st = st1 at h1 hl1 hs1 hw1 hr1 ⊢
    simp only []
    split
    · rename_i e hnot
      refine ⟨⟨k + 1, _, by unfold St.scanned; rw [hl1, hl], by omega,
        by push_cast; simpa using hk, ?_⟩, Or.inr ⟨e, rfl, rfl, ?_⟩⟩
      · intro hfalse
        simp at hfalse
      · obtain ⟨id, w, h2, h3⟩ := h1.sound e (mem_of_peek hnot)
        exact ⟨w, window_mem_scanned d h2, h3⟩
    · rename_i hnot
      have h2 : Good res (notifierCap d) { st1 with startTime := st1.startTime + d } :=
        h1.of_same rfl rfl rfl (fun id w hw => by rw [← hw]; exact window_congr rfl rfl rfl id)
      split
      · rename_i hend
        have hend1 : m + Minute ≤ st1.startTime + d := hend
        apply joinAll_spec m d _ _ h2 (k + 1) (by show st1.later = _; rw [hl1, hl]) (by omega)
        · push_cast; simpa using hk
        · rw [hs1, hs] at hend1
          push_cast; linarith
      · rename_i hend
        have hend1 : ¬ m + Minute ≤ st1.startTime + d := hend
        rw [hs1, hs] at hend1
        have hk1 : ((k + 1 : Nat) : Int) * d < Minute := by push_cast; linarith
        have hlen : st1.later.length = k := by
          rw [hl1, hl, List.length_tail, windows_length]
          omega
        have hcur : st1.startTime + d = m + ((k + 1 : Nat) : Int) * d := by
          rw [hs1, hs]; push_cast; ring
        apply ih sched.tail (k + 1) _ (by omega) hk1
        · show st1.later ++ [(st1.startTime + d, st1.startTime + d + d)] = _
          rw [windows_tail_succ, hl1, hl, hcur]
          have e : m + ((k + 1 : Nat) : Int) * d + d
              = m + (((k + 1 : Nat) : Int) + 1) * d := by ring
          rw [e]
        · exact hcur
        · have hcap : k + 2 ≤ notifierCap d := by
            unfold notifierCap
            have h3 : ((k + 1 : Nat) : Int) ≤ Minute / d :=
              (Int.le_ediv_iff_mul_le hd).mpr (le_of_lt hk1)
            omega
          have hstab : ∀ id w, st1.window id = some w →
              ({ st1 with startTime := st1.startTime + d,
                          running := st1.running ++ [st1.later.length + 1],
                          later := st1.later ++ [(st1.startTime + d, st1.startTime + d + d)] } :
                St).window id = some w := by
            intro id w hw
            cases id with
            | zero => exact hw
            | succ j =>
              have hw1 : st1.later[j]? = some w := hw
              show (st1.later ++ [(st1.startTime + d, st1.startTime + d + d)])[j]? = some w
              obtain ⟨hj, _⟩ := List.getElem?_eq_some.mp hw1
              rw [List.getElem?_append_left hj]
              exact hw1
          refine ⟨?_, ?_, ?_, ?_, ?_⟩
          · show st1.notifier.length + (st1.running ++ [st1.later.length + 1]).length
              ≤ (st1.later ++ [(st1.startTime + d, st1.startTime + d + d)]).length + 1
            have := h1.room
            simp only [List.length_append, List.length_singleton]
            omega
          · show (st1.later ++ [(st1.startTime + d, st1.startTime + d + d)]).length + 1 ≤ _
            simp only [List.length_append, List.length_singleton]
            omega
          · intro id hid
            have hid1 : id ∈ st1.running ++ [st1.later.length + 1] := hid
            show id ≤ (st1.later ++ [(st1.startTime + d, st1.startTime + d + d)]).length
            simp only [List.length_append, List.length_singleton]
            rcases List.mem_append.mp hid1 with h3 | h3
            · have := h1.known id h3
              omega
            · have : id = st1.later.length + 1 := by simpa using h3
              omega
          · intro e he
            obtain ⟨id, w, h3, h4⟩ := h1.sound e he
            exact ⟨id, w, hstab id w h3, h4⟩
          · intro id hid
            have hid1 : id ≤ (st1.later ++ [(st1.startTime + d, st1.startTime + d + d)]).length :=
              hid
            simp only [List.length_append, List.length_singleton] at hid1
            show id ∈ st1.running ++ [st1.later.length + 1] ∨ _
            by_cases hnew : id = st1.later.length + 1
            · left
              rw [hnew]
              exact List.mem_append_right _ (List.mem_singleton_self _)
            · rcases h1.complete id (by omega) with h3 | ⟨w, h3, h4⟩ | h3
              · left; exact List.mem_append_left _ h3
              · right; left; exact ⟨w, hstab id w h3, h4⟩
              · right; right; exact h3

/-- The summary of every call that gets past key parsing with a positive tick interval. -/
theorem Work_spec (env : Env) (sched : List (List Event)) (key : List Char) (m : Time)
    (hm : getStartMinute env key = .ok m) (hd : 0 < gapDuration env.ZRangeGapSeconds) :
    RunOK (handlerErr env key) m (gapDuration env.ZRangeGapSeconds) (Work env sched key) := by
  unfold Work
  rw [hm]
  simp only [not_le.mpr hd, if_false]
  have h := tickLoop_spec (handlerErr env key) (gapDuration env.ZRangeGapSeconds) hd m
    ((Minute / gapDuration env.ZRangeGapSeconds).toNat + 1) sched 0
    { notifier := [], running := [0], startTime := m, arg1 := none, arg2 := none, later := [] }
    (by omega) (by simpa using (by decide : (0 : Int) < Minute))
    (by simp [windows, List.range_succ]) (by simp) ?_
  · exact h
  · refine ⟨by simp, ?_, ?_, by simp, ?_⟩
    · simp [notifierCap]
    · intro id hid
      have : id = 0 := by simpa using hid
      omega
    · intro id hid
      left
      have : id = 0 := by simpa using hid
      rw [this]; simp

/-! ## Geometry of the dispatched windows -/

theorem windows_snd {m : Time} {gap : Int} {n : Nat} {w : Time × Time}
    (h : w ∈ windows m gap n) : w.2 = w.1 + gap := by
  obtain ⟨i, _, rfl⟩ := mem_windows.mp h
  show m + ((i : Int) + 1) * gap = m + (i : Int) * gap + gap
  ring

theorem windows_pairwise (m : Time) (gap : Int) (hgap : 0 < gap) (n : Nat) :
    List.Pairwise (fun a b : Time × Time => a.1 < b.1 ∧ a.2 ≤ b.1) (windows m gap n) := by
  unfold windows
  rw [List.pairwise_map]
  refine List.Pairwise.imp ?_ (List.pairwise_lt_range n)
  intro i j hij
  have h1 : (i : Int) + 1 ≤ (j : Int) := by exact_mod_cast hij
  have h2 : ((i : Int) + 1) * gap ≤ (j : Int) * gap := mul_le_mul_of_nonneg_right h1 (le_of_lt hgap)
  constructor
  · show m + (i : Int) * gap < m + (j : Int) * gap
    nlinarith
  · show m + ((i : Int) + 1) * gap ≤ m + (j : Int) * gap
    linarith

theorem windows_cover (m : Time) (gap : Int) (hgap : 0 < gap) (n : Nat) (t : Time) :
    (∃ w ∈ windows m gap n, w.1 ≤ t ∧ t < w.2) ↔ (m ≤ t ∧ t < m + (n : Int) * gap) := by
  constructor
  · rintro ⟨w, hw, h1, h2⟩
    obtain ⟨i, hi, rfl⟩ := mem_windows.mp hw
    have h3 : (i : Int) + 1 ≤ (n : Int) := by exact_mod_cast hi
    have h4 : ((i : Int) + 1) * gap ≤ (n : Int) * gap := mul_le_mul_of_nonneg_right h3 (le_of_lt hgap)
    have h5 : (0 : Int) ≤ (i : Int) * gap := mul_nonneg (Int.natCast_nonneg i) (le_of_lt hgap)
    simp only at h1 h2
    constructor <;> linarith
  · rintro ⟨h1, h2⟩
    have hq0 : 0 ≤ (t - m) / gap := Int.ediv_nonneg (by linarith) (le_of_lt hgap)
    have hlo : (t - m) / gap * gap ≤ t - m := Int.ediv_mul_le _ (ne_of_gt hgap)
    have hhi : t - m < ((t - m) / gap + 1) * gap := Int.lt_ediv_add_one_mul_self _ hgap
    obtain ⟨i, hi⟩ := Int.eq_ofNat_of_zero_le hq0
    rw [hi] at hlo hhi
    have hin : i < n := by
      have : (i : Int) * gap < (n : Int) * gap := by linarith
      have := lt_of_mul_lt_mul_right this (le_of_lt hgap)
      exact_mod_cast this
    refine ⟨_, mem_windows.mpr ⟨i, hin, rfl⟩, ?_, ?_⟩
    · show m + (i : Int) * gap ≤ t
      linarith
    · show t < m + ((i : Int) + 1) * gap
      linarith

theorem windows_total (m : Time) (gap : Int) (n : Nat) :
    ((windows m gap n).map (fun w => w.2 - w.1)).sum = (n : Int) * gap := by
  induction n with
  | zero => simp [windows]
  | succ n ih =>
    rw [windows_succ, List.map_append, List.sum_append, ih]
    simp only [List.map_cons, List.map_nil, List.sum_cons, List.sum_nil]
    push_cast
    ring

/-- Number of windows of a run that was not cut short, when the gap divides the minute. -/
theorem count_of_dvd {gap : Int} (hgap : 0 < gap) (hdiv : gap ∣ 60) {n : Nat}
    (hlt : ((n : Int) - 1) * gap < 60) (hge : 60 ≤ (n : Int) * gap) : n = (60 / gap).toNat := by
  obtain ⟨q, hq⟩ := hdiv
  have hq1 : 60 / gap = q := by rw [hq]; exact Int.mul_ediv_cancel_left q (ne_of_gt hgap)
  rw [hq1]
  have h1 : (n : Int) - 1 < q := by
    have : ((n : Int) - 1) * gap < q * gap := by linarith
    exact lt_of_mul_lt_mul_right this (le_of_lt hgap)
  have h2 : q ≤ (n : Int) := by
    have : q * gap ≤ (n : Int) * gap := by linarith
    exact le_of_mul_le_mul_right this hgap
  omega

/-- Number of windows of a run that was not cut short, when the gap does not divide the
minute. -/
theorem count_of_not_dvd {gap : Int} (hgap : 0 < gap) (hdiv : ¬ gap ∣ 60) {n : Nat}
    (hlt : ((n : Int) - 1) * gap < 60) (hge : 60 ≤ (n : Int) * gap) :
    n = (60 / gap).toNat + 1 := by
  have hmod : 0 < 60 % gap := by
    rcases lt_or_eq_of_le (Int.emod_nonneg 60 (ne_of_gt hgap)) with h | h
    · exact h
    · exact absurd (Int.dvd_of_emod_eq_zero h.symm) hdiv
  have hmodlt : 60 % gap < gap := Int.emod_lt_of_pos 60 hgap
  have hsplit : gap * (60 / gap) + 60 % gap = 60 := Int.ediv_add_emod 60 gap
  have hq0 : 0 ≤ 60 / gap := Int.ediv_nonneg (by norm_num) (le_of_lt hgap)
  have h1 : 60 / gap < (n : Int) := by
    have : (60 / gap) * gap < (n : Int) * gap := by nlinarith
    exact lt_of_mul_lt_mul_right this (le_of_lt hgap)
  have h2 : (n : Int) - 1 < 60 / gap + 1 := by
    have : ((n : Int) - 1) * gap < (60 / gap + 1) * gap := by nlinarith
    exact lt_of_mul_lt_mul_right this (le_of_lt hgap)
  omega

theorem gapDuration_of_bound (gap : Int) (h1 : 1 ≤ gap) (h2 : gap ≤ 9223372036) :
    gapDuration gap = gap * Second ∧ 0 < gapDuration gap := by
  have e : gapDuration gap = gap * Second := by
    unfold gapDuration wrapInt64 Second
    omega
  refine ⟨e, ?_⟩
  rw [e]
  unfold Second
  omega

theorem count_bounds_seconds {gap : Int} {n : Nat}
    (hlt : ((n : Int) - 1) * (gap * Second) < Minute) (hge : Minute ≤ (n : Int) * (gap * Second)) :
    ((n : Int) - 1) * gap < 60 ∧ 60 ≤ (n : Int) * gap := by
  unfold Second at hlt hge
  unfold Minute at hlt hge
  constructor
  · nlinarith
  · nlinarith

/-! ## Properties of `Work` -/

/-- C1 (as the code has it): for a key whose start minute parses and a gap whose tick
interval `time.Duration(gap) * time.Second`, a product of 64-bit nanosecond counts, is
positive (as it is for every gap from 1 to 9223372036 seconds), if the handler of every
dispatched sub-window returns no error, `Work` returns nil and invokes `ack` exactly once. -/
theorem Work_acks_once_on_success (env : Env) (sched : List (List Event)) (key : List Char)
    (m : Time) (hkey : getStartMinute env key = .ok m)
    (hd : 0 < gapDuration env.ZRangeGapSeconds)
    (hok : ∀ w ∈ (Work env sched key).dispatched, (handleBatch env key w.1 w.2).err = none) :
    (Work env sched key).outcome = .returned none ∧ (Work env sched key).acks = 1 := by
  obtain ⟨_, hout⟩ := Work_spec env sched key m hkey hd
  rcases hout with ⟨h1, h2, _, _⟩ | ⟨e, _, _, w, hw, hres⟩
  · exact ⟨h1, h2⟩
  · exfalso
    have := hok w hw
    unfold handlerErr at hres
    rw [this] at hres
    cases hres

theorem Work_acks_once_on_success_witness :
    (Work (envOk 10 [⟨1, 120500⟩]) [[.arg1, .arg2, .done 0], [.done 2, .done 1]]
        "120_3".toList).outcome = .returned none ∧
    (Work (envOk 10 [⟨1, 120500⟩]) [[.arg1, .arg2, .done 0], [.done 2, .done 1]]
        "120_3".toList).acks = 1 :=
  Work_acks_once_on_success (envOk 10 [⟨1, 120500⟩]) [[.arg1, .arg2, .done 0], [.done 2, .done 1]]
    "120_3".toList 120 (by decide) (by decide) (by decide)

/-- C1 fails as stated: the gap of 36028797018963968 seconds is positive, but its tick
interval wraps around to 0 nanoseconds, so `time.NewTicker` panics: `Work` neither returns nil
nor invokes `ack`, although the key is well formed and no dispatched handler returns an
error. -/
theorem Work_wrapped_gap_counterexample :
    (0 : Int) < 36028797018963968 ∧
    gapDuration 36028797018963968 = 0 ∧
    getStartMinute (envOk 36028797018963968 []) "0_3".toList = .ok 0 ∧
    (∀ w ∈ (Work (envOk 36028797018963968 []) [] "0_3".toList).dispatched,
      (handleBatch (envOk 36028797018963968 []) "0_3".toList w.1 w.2).err = none) ∧
    (Work (envOk 36028797018963968 []) [] "0_3".toList).outcome = .panicked ∧
    (Work (envOk 36028797018963968 []) [] "0_3".toList).outcome ≠ .returned none ∧
    (Work (envOk 36028797018963968 []) [] "0_3".toList).acks = 0 := by
  decide

/-- C2: if the task query of a dispatched sub-window fails, `Work` returns an error that the
handler of some dispatched sub-window returned, and never invokes `ack`, whatever the other
sub-windows do; when no other dispatched handler fails, the returned error is the error of
that query. -/
theorem Work_query_failure (env : Env) (sched : List (List Event)) (key : List Char)
    (b : Int) (w : Time × Time) (qe : Err)
    (hb : getBucket key = .ok b)
    (hw : w ∈ (Work env sched key).dispatched)
    (hq : env.GetTasksByTime key b w.1 w.2 = .error qe) :
    ∃ e, (Work env sched key).outcome = .returned (some e) ∧ (Work env sched key).acks = 0 ∧
      (∃ v ∈ (Work env sched key).dispatched, (handleBatch env key v.1 v.2).err = some e) ∧
      ((∀ v ∈ (Work env sched key).dispatched, v ≠ w → (handleBatch env key v.1 v.2).err = none) →
        e = qe) := by
  have hwerr : (handleBatch env key w.1 w.2).err = some qe := by
    unfold handleBatch
    rw [hb]
    simp only [hq]
  cases hm : getStartMinute env key with
  | error e0 =>
    exfalso
    unfold Work at hw
    rw [hm] at hw
    simp at hw
  | ok m =>
    by_cases hd : 0 < gapDuration env.ZRangeGapSeconds
    · obtain ⟨_, hout⟩ := Work_spec env sched key m hm hd
      rcases hout with ⟨_, _, _, hall⟩ | ⟨e, h1, h2, v, hv, hres⟩
      · exfalso
        have := hall w hw
        unfold handlerErr at this
        rw [hwerr] at this
        cases this
      · unfold handlerErr at hres
        refine ⟨e, h1, h2, ⟨v, hv, hres⟩, ?_⟩
        intro honly
        by_cases hvw : v = w
        · rw [hvw, hwerr] at hres
          exact (Option.some.inj hres).symm
        · rw [honly v hv hvw] at hres
          cases hres
    · exfalso
      unfold Work at hw
      rw [hm] at hw
      simp [not_lt.mp hd] at hw

theorem Work_query_failure_witness :
    ∃ e, (Work (envFail 10 [] 10000000000 0 (.other "db")) [[.arg1, .arg2, .done 0], [.done 2]]
          "0_3".toList).outcome = .returned (some e) ∧
      (Work (envFail 10 [] 10000000000 0 (.other "db")) [[.arg1, .arg2, .done 0], [.done 2]]
          "0_3".toList).acks = 0 ∧
      (∃ v ∈ (Work (envFail 10 [] 10000000000 0 (.other "db"))
            [[.arg1, .arg2, .done 0], [.done 2]] "0_3".toList).dispatched,
        (handleBatch (envFail 10 [] 10000000000 0 (.other "db")) "0_3".toList v.1 v.2).err
          = some e) ∧
      ((∀ v ∈ (Work (envFail 10 [] 10000000000 0 (.other "db"))
            [[.arg1, .arg2, .done 0], [.done 2]] "0_3".toList).dispatched,
          v ≠ (10000000000, 20000000000) →
          (handleBatch (envFail 10 [] 10000000000 0 (.other "db")) "0_3".toList v.1 v.2).err
            = none) →
        e = .other "db") :=
  Work_query_failure (envFail 10 [] 10000000000 0 (.other "db"))
    [[.arg1, .arg2, .done 0], [.done 2]] "0_3".toList 3
    (10000000000, 20000000000) (.other "db") (by decide) (by decide) (by decide)

theorem handleBatch_of_bucket_error {env : Env} {key : List Char} {e : Err}
    (h : getBucket key = .error e) (s t : Time) :
    handleBatch env key s t =
      { err := some e, queried := false, submitted := [], accepted := [], logged := [] } := by
  unfold handleBatch
  rw [h]

/-- C3 (as the code has it): a key that does not split into exactly two parts, or whose first
part the timestamp parser rejects, makes `Work` return an error at once: nothing is
dispatched, no task query is made, `ack` is not invoked. A key with two parts and a good
timestamp whose second part `strconv.Atoi` rejects is only found out by the handlers: with a
positive tick interval at least one sub-window is dispatched, no task query is made, `Work`
returns the error of `Atoi` and does not invoke `ack`. -/
theorem Work_malformed_key (env : Env) (sched : List (List Event)) (key : List Char) :
    (((splitUnderscore key).length ≠ 2 ∨
        ∃ p0 p1 e0, splitUnderscore key = [p0, p1] ∧ env.GetStartMinute p0 = .error e0) →
      ∃ e, Work env sched key =
          { outcome := .returned (some e), acks := 0, dispatched := [], early := false } ∧
        (Work env sched key).queries env key = []) ∧
    (∀ p0 p1 m e, splitUnderscore key = [p0, p1] → env.GetStartMinute p0 = .ok m →
        Atoi p1 = .error e → 0 < gapDuration env.ZRangeGapSeconds →
      (Work env sched key).outcome = .returned (some e) ∧ (Work env sched key).acks = 0 ∧
        (Work env sched key).dispatched ≠ [] ∧ (Work env sched key).queries env key = []) := by
  constructor
  · intro h
    have hm : ∃ e, getStartMinute env key = .error e := by
      rcases h with h | ⟨p0, p1, e0, hs, he⟩
      · refine ⟨.invalidFormat key, ?_⟩
        unfold getStartMinute
        split
        · rename_i a b hs
          rw [hs] at h
          simp at h
        · rfl
      · refine ⟨e0, ?_⟩
        unfold getStartMinute
        rw [hs]
        exact he
    obtain ⟨e, he⟩ := hm
    refine ⟨e, ?_⟩
    have hW : Work env sched key =
        { outcome := .returned (some e), acks := 0, dispatched := [], early := false } := by
      unfold Work
      rw [he]
    rw [hW]
    exact ⟨rfl, rfl⟩
  · intro p0 p1 m e hs hp0 hp1 hd
    have hm : getStartMinute env key = .ok m := by
      unfold getStartMinute
      rw [hs]
      exact hp0
    have hb : getBucket key = .error e := by
      unfold getBucket
      rw [hs]
      exact hp1
    have hres : ∀ w, handlerErr env key w = some e := by
      intro w
      unfold handlerErr
      rw [handleBatch_of_bucket_error hb]
    obtain ⟨⟨n, w0, hdisp, _, _, _⟩, hout⟩ := Work_spec env sched key m hm hd
    have hne : (Work env sched key).dispatched ≠ [] := by
      rw [hdisp]
      simp
    have hq : (Work env sched key).queries env key = [] := by
      unfold Run.queries
      apply List.filter_eq_nil_iff.mpr
      intro w _
      rw [handleBatch_of_bucket_error hb]
      simp
    rcases hout with ⟨_, _, _, hall⟩ | ⟨e1, h1, h2, v, _, hv⟩
    · exfalso
      obtain ⟨w, hw⟩ := List.exists_mem_of_ne_nil _ hne
      have := hall w hw
      rw [hres] at this
      cases this
    · rw [hres] at hv
      cases hv
      exact ⟨h1, h2, hne, hq⟩

theorem Work_malformed_key_witness :
    (∃ e, Work (envOk 10 []) [] "120".toList =
          { outcome := .returned (some e), acks := 0, dispatched := [], early := false } ∧
        (Work (envOk 10 []) [] "120".toList).queries (envOk 10 []) "120".toList = []) ∧
    ((Work (envOk 10 []) [] "120_x".toList).outcome
        = .returned (some (.numSyntax "x".toList)) ∧
      (Work (envOk 10 []) [] "120_x".toList).acks = 0 ∧
      (Work (envOk 10 []) [] "120_x".toList).dispatched ≠ [] ∧
      (Work (envOk 10 []) [] "120_x".toList).queries (envOk 10 []) "120_x".toList = []) :=
  ⟨(Work_malformed_key (envOk 10 []) [] "120".toList).1 (Or.inl (by decide)),
   (Work_malformed_key (envOk 10 []) [] "120_x".toList).2 "120".toList "x".toList 120
      (.numSyntax "x".toList) (by decide) (by decide) (by decide) (by decide)⟩

/-- C3 fails as stated: for the key `0_abc`, whose second part is not an integer, a sub-window
is dispatched before `Work` returns the error; for the key `0_-3`, whose second part is not a
non-negative integer, `Work` succeeds and invokes `ack`. -/
theorem Work_malformed_key_counterexample :
    (Work (envOk 60 []) [[.arg1, .arg2, .done 0]] "0_abc".toList).dispatched
      = [(0, 60000000000)] ∧
    (Work (envOk 60 []) [[.arg1, .arg2, .done 0]] "0_abc".toList).outcome
      = .returned (some (.numSyntax "abc".toList)) ∧
    (Work (envOk 60 []) [[.arg1, .arg2, .done 0]] "0_-3".toList).outcome = .returned none ∧
    (Work (envOk 60 []) [[.arg1, .arg2, .done 0]] "0_-3".toList).acks = 1 ∧
    (Work (envOk 60 []) [[.arg1, .arg2, .done 0]] "0_-3".toList).queries (envOk 60 [])
      "0_-3".toList = [(0, 60000000000)] := by
  decide

theorem dispatched_eq_windows {res : Time × Time → Option Err} {m : Time} {d : Int} {r : Run}
    (h : RunOK res m d r) (hfirst : r.dispatched.head? = some (m, m + d)) :
    ∃ n : Nat, r.dispatched = windows m d n ∧ 1 ≤ n ∧ ((n : Int) - 1) * d < Minute ∧
      (r.early = false → Minute ≤ (n : Int) * d) := by
  obtain ⟨⟨n, w0, hdisp, hn, hlt, hge⟩, _⟩ := h
  rw [hdisp] at hfirst
  have hw0 : w0 = (m, m + d) := by simpa using hfirst
  refine ⟨n, ?_, hn, hlt, hge⟩
  rw [hdisp, hw0]
  exact (windows_eq_cons m d n hn).symm

/-- In a run in which the first handler is called with `[m, m+gap)`: with a positive gap that
divides 60, a run of `Work` that does not return from inside the tick loop dispatches exactly
`60/gap` sub-windows, the `i`-th being `[m + i*gap, m + (i+1)*gap)`: in increasing order, each
of length `gap`, not overlapping, and covering exactly the instants of `[m, m+60s)`. -/
theorem Work_dispatch_tiles_minute_of_first (env : Env) (sched : List (List Event))
    (key : List Char) (m : Time) (hkey : getStartMinute env key = .ok m)
    (hgap : 0 < env.ZRangeGapSeconds) (hdiv : env.ZRangeGapSeconds ∣ 60)
    (hno : (Work env sched key).early = false)
    (hfirst : (Work env sched key).dispatched.head?
      = some (m, m + env.ZRangeGapSeconds * Second)) :
    (Work env sched key).dispatched
        = windows m (env.ZRangeGapSeconds * Second) (60 / env.ZRangeGapSeconds).toNat ∧
      (Work env sched key).dispatched.length = (60 / env.ZRangeGapSeconds).toNat ∧
      List.Pairwise (fun a b : Time × Time => a.1 < b.1 ∧ a.2 ≤ b.1)
        (Work env sched key).dispatched ∧
      (∀ w ∈ (Work env sched key).dispatched, w.2 - w.1 = env.ZRangeGapSeconds * Second) ∧
      (∀ t : Time, (m ≤ t ∧ t < m + Minute) ↔
        ∃ w ∈ (Work env sched key).dispatched, w.1 ≤ t ∧ t < w.2) := by
  have hle : env.ZRangeGapSeconds ≤ 60 := Int.le_of_dvd (by norm_num) hdiv
  obtain ⟨hdur, hd⟩ := gapDuration_of_bound env.ZRangeGapSeconds (by omega) (by omega)
  have hspec := Work_spec env sched key m hkey hd
  rw [hdur] at hspec
  obtain ⟨n, hdisp, _, hlt, hge⟩ := dispatched_eq_windows hspec hfirst
  obtain ⟨hlt1, hge1⟩ := count_bounds_seconds hlt (hge hno)
  have hn := count_of_dvd hgap hdiv hlt1 hge1
  rw [hn] at hdisp
  have hq0 : 0 ≤ 60 / env.ZRangeGapSeconds := Int.ediv_nonneg (by norm_num) (le_of_lt hgap)
  have hpos : 0 < env.ZRangeGapSeconds * Second := by rw [← hdur]; exact hd
  have hfull : (((60 / env.ZRangeGapSeconds).toNat : Nat) : Int) * (env.ZRangeGapSeconds * Second)
      = Minute := by
    rw [Int.toNat_of_nonneg hq0, ← mul_assoc, Int.ediv_mul_cancel hdiv]
    rfl
  rw [hdisp]
  refine ⟨rfl, windows_length _ _ _, windows_pairwise m _ hpos _, ?_, ?_⟩
  · intro w hw
    rw [windows_snd hw]
    ring
  · intro t
    rw [windows_cover m _ hpos, hfull]

/-- C4 is broken by the code: the first goroutine has no parameter and reads the variable
`startTime` when it evaluates its arguments. With gap 10 and key `0_3`, in a run without any
error in which it does so after the first tick, its handler is called with `[m+10s, m+20s)`,
the window of the handler started at the first tick: that window is scanned twice,
`[m, m+10s)` is never scanned, and the dispatched sub-windows are not the six windows that
tile the minute. -/
theorem Work_first_goroutine_race :
    (Work (envOk 10 []) [[], [.arg1, .arg2]] "0_3".toList).outcome = .returned none ∧
    (Work (envOk 10 []) [[], [.arg1, .arg2]] "0_3".toList).early = false ∧
    (Work (envOk 10 []) [[], [.arg1, .arg2]] "0_3".toList).dispatched
      = [(10000000000, 20000000000), (10000000000, 20000000000), (20000000000, 30000000000),
         (30000000000, 40000000000), (40000000000, 50000000000), (50000000000, 60000000000)] ∧
    (0, 10000000000) ∉ (Work (envOk 10 []) [[], [.arg1, .arg2]] "0_3".toList).dispatched ∧
    (Work (envOk 10 []) [[], [.arg1, .arg2]] "0_3".toList).dispatched
      ≠ windows 0 (10 * Second) 6 ∧
    (Work (envOk 10 []) [[.arg1, .arg2]] "0_3".toList).dispatched = windows 0 (10 * Second) 6 := by
  decide

/-- C5 (as the code has it): with a gap of 1 to 9223372036 seconds that does not divide 60, a
run of `Work` that does not return from inside the tick loop and in which the first handler is
called with `[m, m+gap)` dispatches `60/gap + 1` sub-windows (rounded down), which cover
`60 + (gap - 60 mod gap)` seconds: every instant of the minute `[m, m+60s)` lies in a
dispatched sub-window, and the last sub-window runs `gap - 60 mod gap` seconds past the end of
the minute. -/
theorem Work_dispatch_overruns_minute (env : Env) (sched : List (List Event)) (key : List Char)
    (m : Time) (hkey : getStartMinute env key = .ok m) (hgap : 1 ≤ env.ZRangeGapSeconds)
    (hmax : env.ZRangeGapSeconds ≤ 9223372036)
    (hdiv : ¬ env.ZRangeGapSeconds ∣ 60) (hno : (Work env sched key).early = false)
    (hfirst : (Work env sched key).dispatched.head?
      = some (m, m + env.ZRangeGapSeconds * Second)) :
    (Work env sched key).dispatched
        = windows m (env.ZRangeGapSeconds * Second) ((60 / env.ZRangeGapSeconds).toNat + 1) ∧
      (((Work env sched key).dispatched.map (fun w => w.2 - w.1)).sum
        = (60 + (env.ZRangeGapSeconds - 60 % env.ZRangeGapSeconds)) * Second) ∧
      (∀ t : Time,
        (m ≤ t ∧ t < m + (60 + (env.ZRangeGapSeconds - 60 % env.ZRangeGapSeconds)) * Second) ↔
        ∃ w ∈ (Work env sched key).dispatched, w.1 ≤ t ∧ t < w.2) ∧
      (∀ t : Time, m ≤ t → t < m + Minute →
        ∃ w ∈ (Work env sched key).dispatched, w.1 ≤ t ∧ t < w.2) := by
  have hpos0 : 0 < env.ZRangeGapSeconds := by omega
  obtain ⟨hdur, hd⟩ := gapDuration_of_bound env.ZRangeGapSeconds hgap hmax
  have hspec := Work_spec env sched key m hkey hd
  rw [hdur] at hspec
  obtain ⟨n, hdisp, _, hlt, hge⟩ := dispatched_eq_windows hspec hfirst
  obtain ⟨hlt1, hge1⟩ := count_bounds_seconds hlt (hge hno)
  have hn := count_of_not_dvd hpos0 hdiv hlt1 hge1
  rw [hn] at hdisp
  have hq0 : 0 ≤ 60 / env.ZRangeGapSeconds := Int.ediv_nonneg (by norm_num) (le_of_lt hpos0)
  have hpos : 0 < env.ZRangeGapSeconds * Second := by rw [← hdur]; exact hd
  have hsplit : env.ZRangeGapSeconds * (60 / env.ZRangeGapSeconds) + 60 % env.ZRangeGapSeconds
      = 60 := Int.ediv_add_emod 60 _
  have hmodlt : 60 % env.ZRangeGapSeconds < env.ZRangeGapSeconds := Int.emod_lt_of_pos 60 hpos0
  have hfull : ((((60 / env.ZRangeGapSeconds).toNat + 1 : Nat) : Int)) *
      (env.ZRangeGapSeconds * Second)
      = (60 + (env.ZRangeGapSeconds - 60 % env.ZRangeGapSeconds)) * Second := by
    push_cast
    rw [Int.toNat_of_nonneg hq0, ← mul_assoc]
    congr 1
    linarith
  have hcov : ∀ t : Time,
      (m ≤ t ∧ t < m + (60 + (env.ZRangeGapSeconds - 60 % env.ZRangeGapSeconds)) * Second) ↔
        ∃ w ∈ windows m (env.ZRangeGapSeconds * Second) ((60 / env.ZRangeGapSeconds).toNat + 1),
          w.1 ≤ t ∧ t < w.2 := by
    intro t
    rw [windows_cover m _ hpos, hfull]
  rw [hdisp]
  refine ⟨rfl, ?_, hcov, ?_⟩
  · rw [windows_total, hfull]
  · intro t h1 h2
    refine (hcov t).mp ⟨h1, ?_⟩
    have : Minute = 60 * Second := rfl
    have hS : (0 : Int) < Second := by decide
    nlinarith

theorem Work_dispatch_overruns_minute_witness :
    (Work (envOk 7 []) [[.arg1, .arg2]] "120_3".toList).dispatched
        = windows 120 (7 * Second) ((60 / (7 : Int)).toNat + 1) ∧
      (((Work (envOk 7 []) [[.arg1, .arg2]] "120_3".toList).dispatched.map
          (fun w => w.2 - w.1)).sum = (60 + ((7 : Int) - 60 % 7)) * Second) ∧
      (∀ t : Time, (120 ≤ t ∧ t < 120 + (60 + ((7 : Int) - 60 % 7)) * Second) ↔
        ∃ w ∈ (Work (envOk 7 []) [[.arg1, .arg2]] "120_3".toList).dispatched,
          w.1 ≤ t ∧ t < w.2) ∧
      (∀ t : Time, 120 ≤ t → t < 120 + Minute →
        ∃ w ∈ (Work (envOk 7 []) [[.arg1, .arg2]] "120_3".toList).dispatched,
          w.1 ≤ t ∧ t < w.2) :=
  Work_dispatch_overruns_minute (envOk 7 []) [[.arg1, .arg2]] "120_3".toList 120 (by decide)
    (by decide) (by decide) (by decide) (by decide) (by decide)

/-- C5 fails as stated: with gap 7 and no error, nine sub-windows are dispatched, they cover
63 seconds and not 56, and the last four seconds of the minute lie in the ninth sub-window
`[m+56s, m+63s)`, whose handler calls the task query. -/
theorem Work_gap7_counterexample :
    (Work (envOk 7 []) [[.arg1, .arg2]] "0_3".toList).outcome = .returned none ∧
    (Work (envOk 7 []) [[.arg1, .arg2]] "0_3".toList).dispatched.length = 9 ∧
    ((Work (envOk 7 []) [[.arg1, .arg2]] "0_3".toList).dispatched.map
      (fun w => w.2 - w.1)).sum = 63 * Second ∧
    ((Work (envOk 7 []) [[.arg1, .arg2]] "0_3".toList).dispatched.map
      (fun w => w.2 - w.1)).sum ≠ (60 - 60 % 7) * Second ∧
    (56 * Second, 63 * Second) ∈ (Work (envOk 7 []) [[.arg1, .arg2]] "0_3".toList).dispatched ∧
    (56 * Second, 63 * Second) ∈
      (Work (envOk 7 []) [[.arg1, .arg2]] "0_3".toList).queries (envOk 7 []) "0_3".toList := by
  decide

/-- C9: replacing the executor by any other one changes neither what `handleBatch` returns and
submits nor how `Work` ends, how often it invokes `ack`, or what it dispatches: an executor
failure only reaches the log. -/
theorem executor_does_not_influence_outcome (env : Env) (exec2 : Nat × Int → Option Err)
    (sched : List (List Event)) (key : List Char) :
    (∀ s t : Time,
      (handleBatch { env with ExecutorWork := exec2 } key s t).err = (handleBatch env key s t).err ∧
      (handleBatch { env with ExecutorWork := exec2 } key s t).submitted
        = (handleBatch env key s t).submitted ∧
      (handleBatch { env with ExecutorWork := exec2 } key s t).accepted
        = (handleBatch env key s t).accepted) ∧
    (Work { env with ExecutorWork := exec2 } sched key).outcome = (Work env sched key).outcome ∧
    (Work { env with ExecutorWork := exec2 } sched key).acks = (Work env sched key).acks ∧
    (Work { env with ExecutorWork := exec2 } sched key).dispatched
      = (Work env sched key).dispatched := by
  have hsub : ∀ (s : Time) (ts : List Task) (j : Nat),
      (submitTasks { env with ExecutorWork := exec2 } s ts j).err = (submitTasks env s ts j).err ∧
      (submitTasks { env with ExecutorWork := exec2 } s ts j).submitted
        = (submitTasks env s ts j).submitted ∧
      (submitTasks { env with ExecutorWork := exec2 } s ts j).accepted
        = (submitTasks env s ts j).accepted := by
    intro s ts
    induction ts with
    | nil => intro j; exact ⟨rfl, rfl, rfl⟩
    | cons t ts ih =>
      intro j
      unfold submitTasks
      cases hj : env.Submit s j with
      | some e => simp [hj]
      | none =>
        obtain ⟨h1, h2, h3⟩ := ih (j + 1)
        simp [hj, h1, h2, h3]
  have hb : ∀ s t : Time,
      (handleBatch { env with ExecutorWork := exec2 } key s t).err = (handleBatch env key s t).err ∧
      (handleBatch { env with ExecutorWork := exec2 } key s t).submitted
        = (handleBatch env key s t).submitted ∧
      (handleBatch { env with ExecutorWork := exec2 } key s t).accepted
        = (handleBatch env key s t).accepted := by
    intro s t
    unfold handleBatch
    cases getBucket key with
    | error e => exact ⟨rfl, rfl, rfl⟩
    | ok b =>
      simp only []
      cases env.GetTasksByTime key b s t with
      | error e => exact ⟨rfl, rfl, rfl⟩
      | ok tasks => exact hsub s tasks 0
  have hres : handlerErr { env with ExecutorWork := exec2 } key = handlerErr env key := by
    funext w
    unfold handlerErr
    exact (hb w.1 w.2).1
  have hW : Work { env with ExecutorWork := exec2 } sched key = Work env sched key := by
    unfold Work getStartMinute
    rw [hres]
  rw [hW]
  exact ⟨hb, rfl, rfl, rfl⟩

/-- C10 (as the code has it): with a tick interval `time.Duration(gap) * time.Second` that is
positive, the ticker is created, the capacity of the notifier is `time.Minute` divided by the
interval, plus one, and no call of `Work` dispatches more handlers than that, so no handler
waits for a free slot and the call returns. With a gap of 1 to 9223372036 seconds the interval
is `gap` seconds without wrap-around, the divisor is not zero, and the capacity is
`60/gap + 1` (rounded down). -/
theorem notifier_capacity_covers_handlers (env : Env) (sched : List (List Event))
    (key : List Char) :
    (0 < gapDuration env.ZRangeGapSeconds →
      (Work env sched key).outcome ≠ .panicked ∧
      (Work env sched key).dispatched.length ≤ notifierCap (gapDuration env.ZRangeGapSeconds) ∧
      (∃ err, (Work env sched key).outcome = .returned err)) ∧
    (1 ≤ env.ZRangeGapSeconds → env.ZRangeGapSeconds ≤ 9223372036 →
      gapDuration env.ZRangeGapSeconds = env.ZRangeGapSeconds * Second ∧
      gapDuration env.ZRangeGapSeconds ≠ 0 ∧
      ((notifierCap (gapDuration env.ZRangeGapSeconds) : Nat) : Int)
        = 60 / env.ZRangeGapSeconds + 1 ∧
      (Work env sched key).outcome ≠ .panicked ∧
      (Work env sched key).dispatched.length ≤ notifierCap (gapDuration env.ZRangeGapSeconds) ∧
      (∃ err, (Work env sched key).outcome = .returned err)) := by
  have hgen : 0 < gapDuration env.ZRangeGapSeconds →
      (Work env sched key).outcome ≠ .panicked ∧
      (Work env sched key).dispatched.length ≤ notifierCap (gapDuration env.ZRangeGapSeconds) ∧
      (∃ err, (Work env sched key).outcome = .returned err) := by
    intro hd
    have hq0 : 0 ≤ Minute / gapDuration env.ZRangeGapSeconds :=
      Int.ediv_nonneg (by decide) (le_of_lt hd)
    cases hm : getStartMinute env key with
    | error e =>
      have hW : Work env sched key =
          { outcome := .returned (some e), acks := 0, dispatched := [], early := false } := by
        unfold Work
        rw [hm]
      rw [hW]
      exact ⟨by simp, by simp, ⟨_, rfl⟩⟩
    | ok m =>
      obtain ⟨⟨n, w0, hdisp, hn1, hlt, _⟩, hout⟩ := Work_spec env sched key m hm hd
      have hlen : (Work env sched key).dispatched.length = n := by
        rw [hdisp, List.length_cons, List.length_tail, windows_length]
        omega
      have hn : (n : Int) - 1 ≤ Minute / gapDuration env.ZRangeGapSeconds :=
        (Int.le_ediv_iff_mul_le hd).mpr (le_of_lt hlt)
      have hle : n ≤ notifierCap (gapDuration env.ZRangeGapSeconds) := by
        unfold notifierCap
        omega
      rcases hout with ⟨h1, _, _, _⟩ | ⟨e, h1, _, _⟩
      · exact ⟨by rw [h1]; simp, by rw [hlen]; exact hle, ⟨_, h1⟩⟩
      · exact ⟨by rw [h1]; simp, by rw [hlen]; exact hle, ⟨_, h1⟩⟩
  refine ⟨hgen, ?_⟩
  intro h1 h2
  obtain ⟨hdur, hd⟩ := gapDuration_of_bound env.ZRangeGapSeconds h1 h2
  have hpos : 0 < env.ZRangeGapSeconds := by omega
  have hq0 : 0 ≤ 60 / env.ZRangeGapSeconds := Int.ediv_nonneg (by norm_num) (le_of_lt hpos)
  have hcap : ((notifierCap (gapDuration env.ZRangeGapSeconds) : Nat) : Int)
      = 60 / env.ZRangeGapSeconds + 1 := by
    unfold notifierCap
    rw [hdur]
    have hdivs : Minute / (env.ZRangeGapSeconds * Second) = 60 / env.ZRangeGapSeconds := by
      have : Minute = 60 * Second := rfl
      rw [this]
      exact Int.mul_ediv_mul_of_pos_left 60 env.ZRangeGapSeconds (by decide)
    rw [hdivs]
    push_cast
    rw [Int.toNat_of_nonneg hq0]
  obtain ⟨g1, g2, g3⟩ := hgen hd
  exact ⟨hdur, ne_of_gt hd, hcap, g1, g2, g3⟩

theorem notifier_capacity_covers_handlers_witness :
    ((Work (envFail 7 [] 14000000000 0 (.other "db")) [[.arg1, .arg2, .done 0], [.done 2, .done 1]]
        "0_3".toList).outcome ≠ .panicked ∧
      (Work (envFail 7 [] 14000000000 0 (.other "db")) [[.arg1, .arg2, .done 0], [.done 2, .done 1]]
        "0_3".toList).dispatched.length ≤ notifierCap (gapDuration 7) ∧
      (∃ err, (Work (envFail 7 [] 14000000000 0 (.other "db"))
        [[.arg1, .arg2, .done 0], [.done 2, .done 1]] "0_3".toList).outcome = .returned err)) ∧
    (gapDuration 7 = 7 * Second ∧
      gapDuration 7 ≠ 0 ∧
      ((notifierCap (gapDuration 7) : Nat) : Int) = 60 / 7 + 1 ∧
      (Work (envFail 7 [] 14000000000 0 (.other "db")) [[.arg1, .arg2, .done 0], [.done 2, .done 1]]
        "0_3".toList).outcome ≠ .panicked ∧
      (Work (envFail 7 [] 14000000000 0 (.other "db")) [[.arg1, .arg2, .done 0], [.done 2, .done 1]]
        "0_3".toList).dispatched.length ≤ notifierCap (gapDuration 7) ∧
      (∃ err, (Work (envFail 7 [] 14000000000 0 (.other "db"))
        [[.arg1, .arg2, .done 0], [.done 2, .done 1]] "0_3".toList).outcome = .returned err)) :=
  ⟨(notifier_capacity_covers_handlers (envFail 7 [] 14000000000 0 (.other "db"))
      [[.arg1, .arg2, .done 0], [.done 2, .done 1]] "0_3".toList).1 (by decide),
   (notifier_capacity_covers_handlers (envFail 7 [] 14000000000 0 (.other "db"))
      [[.arg1, .arg2, .done 0], [.done 2, .done 1]] "0_3".toList).2 (by decide) (by decide)⟩

/-- C10 fails as stated: the gap of 36028797018963968 seconds is at least 1, but its interval
wraps around to 0 nanoseconds, the divisor of the capacity, and `time.NewTicker` panics; the
gap of 18446744074 seconds has the wrapped interval 290448384 nanoseconds, with which the
capacity is 207 and not `60/gap + 1 = 1`. -/
theorem notifier_capacity_counterexample :
    (1 : Int) ≤ 36028797018963968 ∧
    gapDuration 36028797018963968 = 0 ∧
    (Work (envOk 36028797018963968 []) [[.arg1, .arg2]] "0_3".toList).outcome = .panicked ∧
    (1 : Int) ≤ 18446744074 ∧
    gapDuration 18446744074 = 290448384 ∧
    notifierCap (gapDuration 18446744074) = 207 ∧
    (60 / (18446744074 : Int) + 1 = 1) := by
  decide

/-! ## Properties of `handleBatch` -/

theorem submitTasks_reject (env : Env) (start : Time) (e : Err) :
    ∀ (tasks : List Task) (j k : Nat), k < tasks.length →
      (∀ i, i < k → env.Submit start (j + i) = none) → env.Submit start (j + k) = some e →
      (submitTasks env start tasks j).err = some e ∧
      (submitTasks env start tasks j).submitted = tasks.take (k + 1) ∧
      (submitTasks env start tasks j).accepted = tasks.take k := by
  intro tasks
  induction tasks with
  | nil => intro j k hk; simp at hk
  | cons t ts ih =>
    intro j k hk hacc hrej
    unfold submitTasks
    cases k with
    | zero =>
      have h0 : env.Submit start j = some e := by simpa using hrej
      simp [h0]
    | succ k =>
      have h0 : env.Submit start j = none := by simpa using hacc 0 (by omega)
      have hk1 : k < ts.length := by simpa using hk
      obtain ⟨h1, h2, h3⟩ := ih (j + 1) k hk1
        (fun i hi => by have := hacc (i + 1) (by omega); rwa [show j + (i + 1) = j + 1 + i by omega] at this)
        (by rwa [show j + (k + 1) = j + 1 + k by omega] at hrej)
      simp [h0, h1, h2, h3]

theorem submitTasks_accept (env : Env) (start : Time) :
    ∀ (tasks : List Task) (j : Nat),
      (∀ i, i < tasks.length → env.Submit start (j + i) = none) →
      (submitTasks env start tasks j).err = none ∧
      (submitTasks env start tasks j).submitted = tasks ∧
      (submitTasks env start tasks j).accepted = tasks := by
  intro tasks
  induction tasks with
  | nil => intro j _; exact ⟨rfl, rfl, rfl⟩
  | cons t ts ih =>
    intro j hacc
    unfold submitTasks
    have h0 : env.Submit start j = none := by simpa using hacc 0 (by simp)
    obtain ⟨h1, h2, h3⟩ := ih (j + 1)
      (fun i hi => by
        have := hacc (i + 1) (by simp; omega)
        rwa [show j + (i + 1) = j + 1 + i by omega] at this)
    simp [h0, h1, h2, h3]

/-- C8: when the task query of a sub-window returns `tasks` and the pool accepts the first
`k` submissions and rejects the next one with `e`, `handleBatch` hands exactly the first `k+1`
tasks to the pool, in the order of the query, keeps the first `k` accepted, submits nothing
after the rejected one and returns `e`; when the pool rejects none, it submits all tasks in
order and returns nil. -/
theorem handleBatch_stops_at_first_rejection (env : Env) (key : List Char) (b : Int)
    (start end_ : Time) (tasks : List Task)
    (hb : getBucket key = .ok b) (hq : env.GetTasksByTime key b start end_ = .ok tasks) :
    (∀ (k : Nat) (e : Err), k < tasks.length → (∀ i, i < k → env.Submit start i = none) →
        env.Submit start k = some e →
      (handleBatch env key start end_).err = some e ∧
      (handleBatch env key start end_).submitted = tasks.take (k + 1) ∧
      (handleBatch env key start end_).accepted = tasks.take k) ∧
    ((∀ i, i < tasks.length → env.Submit start i = none) →
      (handleBatch env key start end_).err = none ∧
      (handleBatch env key start end_).submitted = tasks ∧
      (handleBatch env key start end_).accepted = tasks) := by
  have hh : handleBatch env key start end_ = submitTasks env start tasks 0 := by
    unfold handleBatch
    rw [hb]
    simp only [hq]
  rw [hh]
  constructor
  · intro k e hk hacc hrej
    exact submitTasks_reject env start e tasks 0 k hk (by simpa using hacc) (by simpa using hrej)
  · intro hacc
    exact submitTasks_accept env start tasks 0 (by simpa using hacc)

theorem handleBatch_stops_at_first_rejection_witness :
    ((handleBatch (envFail 10 [⟨1, 5⟩, ⟨2, 6⟩, ⟨3, 7⟩] 99 1 (.other "full")) "120_3".toList
        120 130).err = some (.other "full") ∧
      (handleBatch (envFail 10 [⟨1, 5⟩, ⟨2, 6⟩, ⟨3, 7⟩] 99 1 (.other "full")) "120_3".toList
        120 130).submitted = [⟨1, 5⟩, ⟨2, 6⟩, ⟨3, 7⟩].take (1 + 1) ∧
      (handleBatch (envFail 10 [⟨1, 5⟩, ⟨2, 6⟩, ⟨3, 7⟩] 99 1 (.other "full")) "120_3".toList
        120 130).accepted = [⟨1, 5⟩, ⟨2, 6⟩, ⟨3, 7⟩].take 1) ∧
    ((handleBatch (envOk 10 [⟨1, 5⟩, ⟨2, 6⟩]) "120_3".toList 120 130).err = none ∧
      (handleBatch (envOk 10 [⟨1, 5⟩, ⟨2, 6⟩]) "120_3".toList 120 130).submitted
        = [⟨1, 5⟩, ⟨2, 6⟩] ∧
      (handleBatch (envOk 10 [⟨1, 5⟩, ⟨2, 6⟩]) "120_3".toList 120 130).accepted
        = [⟨1, 5⟩, ⟨2, 6⟩]) :=
  ⟨(handleBatch_stops_at_first_rejection (envFail 10 [⟨1, 5⟩, ⟨2, 6⟩, ⟨3, 7⟩] 99 1 (.other "full"))
      "120_3".toList 3 120 130 [⟨1, 5⟩, ⟨2, 6⟩, ⟨3, 7⟩] (by decide) (by decide)).1 1
      (.other "full") (by decide) (by decide) (by decide),
   (handleBatch_stops_at_first_rejection (envOk 10 [⟨1, 5⟩, ⟨2, 6⟩])
      "120_3".toList 3 120 130 [⟨1, 5⟩, ⟨2, 6⟩] (by decide) (by decide)).2 (by decide)⟩

/-! ## Properties of the bucket-key codec -/

theorem decValue_ge (ds : List Char) : ∀ n : Nat, n ≤ decValue n ds := by
  induction ds with
  | nil => intro n; exact le_refl n
  | cons c cs ih =>
    intro n
    have h := ih (n * 10 + (c.toNat - 48))
    have e : decValue n (c :: cs) = decValue (n * 10 + (c.toNat - 48)) cs := rfl
    rw [e]
    omega

theorem digitVal_eq {c : Char} {d : Nat} (h : digitVal c = some d) : d = c.toNat - 48 := by
  unfold digitVal at h
  split at h
  · exact (Option.some.inj h).symm
  · cases h

theorem parseUintLoop_ok_iff (s0 : List Char) :
    ∀ (ds : List Char) (n v : Nat), n < 2 ^ 64 →
      (parseUintLoop s0 ds n = .ok v ↔
        (∀ c ∈ ds, (digitVal c).isSome = true) ∧ v = decValue n ds ∧ v < 2 ^ 64) := by
  intro ds
  induction ds with
  | nil =>
    intro n v hn
    unfold parseUintLoop
    constructor
    · intro h
      have : n = v := by injection h
      subst this
      exact ⟨by simp, rfl, hn⟩
    · rintro ⟨_, h, _⟩
      rw [h]; rfl
  | cons c cs ih =>
    intro n v hn
    unfold parseUintLoop
    have e : decValue n (c :: cs) = decValue (n * 10 + (c.toNat - 48)) cs := rfl
    cases hd : digitVal c with
    | none =>
      simp only []
      constructor
      · intro h; cases h
      · rintro ⟨h, _, _⟩
        have := h c (List.mem_cons_self _ _)
        rw [hd] at this
        cases this
    | some d =>
      simp only []
      have hdv := digitVal_eq hd
      by_cases hlt : n * 10 + d < 2 ^ 64
      · rw [if_pos hlt, ih (n * 10 + d) v hlt, e, ← hdv]
        constructor
        · rintro ⟨h1, h2, h3⟩
          refine ⟨?_, h2, h3⟩
          intro c1 hc1
          rcases List.mem_cons.mp hc1 with h | h
          · rw [h, hd]; rfl
          · exact h1 c1 h
        · rintro ⟨h1, h2, h3⟩
          exact ⟨fun c1 hc1 => h1 c1 (List.mem_cons_of_mem _ hc1), h2, h3⟩
      · rw [if_neg hlt]
        constructor
        · intro h; cases h
        · rintro ⟨_, h2, h3⟩
          exfalso
          have := decValue_ge cs (n * 10 + d)
          rw [e, ← hdv] at h2
          omega

theorem Atoi_cons (c : Char) (cs : List Char) :
    Atoi (c :: cs) =
      if (if c = '-' ∨ c = '+' then cs else c :: cs) = [] then .error (.numSyntax (c :: cs))
      else
        match parseUintLoop (c :: cs) (if c = '-' ∨ c = '+' then cs else c :: cs) 0 with
        | .error e => .error e
        | .ok un =>
          if decide (c = '-') = false ∧ 2 ^ 63 ≤ un then .error (.numRange (c :: cs))
          else if decide (c = '-') = true ∧ 2 ^ 63 < un then .error (.numRange (c :: cs))
          else .ok (if decide (c = '-') then -(un : Int) else (un : Int)) := rfl

/-- What `Atoi` accepts, given the digits `body` it reads after the sign. -/
theorem Atoi_ok_iff_body (c : Char) (cs : List Char) (v : Int) :
    Atoi (c :: cs) = .ok v ↔
      (if c = '-' ∨ c = '+' then cs else c :: cs) ≠ [] ∧
      (∀ x ∈ (if c = '-' ∨ c = '+' then cs else c :: cs), (digitVal x).isSome = true) ∧
      v = (if c = '-' then -(decValue 0 (if c = '-' ∨ c = '+' then cs else c :: cs) : Int)
            else (decValue 0 (if c = '-' ∨ c = '+' then cs else c :: cs) : Int)) ∧
      -(2 ^ 63 : Int) ≤ v ∧ v < 2 ^ 63 := by
  rw [Atoi_cons]
  generalize (if c = '-' ∨ c = '+' then cs else c :: cs) = body
  by_cases hb : body = []
  · simp [hb]
  · rw [if_neg hb]
    have hp := parseUintLoop_ok_iff (c :: cs) body 0
    cases hparse : parseUintLoop (c :: cs) body 0 with
    | error e =>
      simp only []
      constructor
      · intro h; cases h
      · rintro ⟨_, h1, h2, h3, h4⟩
        exfalso
        by_cases hneg : c = '-'
        · rw [if_pos hneg] at h2
          have hlt : decValue 0 body < 2 ^ 64 := by
            have : ((decValue 0 body : Nat) : Int) ≤ 2 ^ 63 := by linarith
            have : decValue 0 body ≤ 2 ^ 63 := by exact_mod_cast this
            omega
          have := (hp (decValue 0 body) (by norm_num)).mpr ⟨h1, rfl, hlt⟩
          rw [hparse] at this
          cases this
        · rw [if_neg hneg] at h2
          have hlt : decValue 0 body < 2 ^ 64 := by
            have : ((decValue 0 body : Nat) : Int) < 2 ^ 63 := by linarith
            have : decValue 0 body < 2 ^ 63 := by exact_mod_cast this
            omega
          have := (hp (decValue 0 body) (by norm_num)).mpr ⟨h1, rfl, hlt⟩
          rw [hparse] at this
          cases this
    | ok un =>
      simp only []
      obtain ⟨h1, h2, h3⟩ := (hp un (by norm_num)).mp hparse
      rw [← h2]
      by_cases hneg : c = '-'
      · simp only [hneg, decide_True, if_true, true_and]
        have : ¬ (true = false ∧ 2 ^ 63 ≤ un) := by simp
        rw [if_neg this]
        by_cases hbig : 2 ^ 63 < un
        · rw [if_pos hbig]
          constructor
          · intro h; cases h
          · rintro ⟨_, _, h5, h6, _⟩
            exfalso
            have : ((un : Nat) : Int) ≤ 2 ^ 63 := by linarith
            have : un ≤ 2 ^ 63 := by exact_mod_cast this
            omega
        · rw [if_neg hbig]
          have hle : ((un : Nat) : Int) ≤ 2 ^ 63 := by exact_mod_cast (not_lt.mp hbig)
          constructor
          · intro h
            have : -(un : Int) = v := by injection h
            subst this
            refine ⟨hb, h1, rfl, by linarith, by
              have : (0 : Int) ≤ (un : Int) := Int.natCast_nonneg un
              linarith⟩
          · rintro ⟨_, _, h5, _, _⟩
            rw [h5]
      · simp only [hneg, decide_False, if_false, true_and]
        have : ¬ (false = true ∧ 2 ^ 63 < un) := by simp
        by_cases hbig : 2 ^ 63 ≤ un
        · rw [if_pos hbig]
          constructor
          · intro h; cases h
          · rintro ⟨_, _, h5, _, h6⟩
            exfalso
            have : ((un : Nat) : Int) < 2 ^ 63 := by linarith
            have : un < 2 ^ 63 := by exact_mod_cast this
            omega
        · rw [if_neg hbig, if_neg this]
          have hlt : ((un : Nat) : Int) < 2 ^ 63 := by exact_mod_cast (not_le.mp hbig)
          constructor
          · intro h
            have : (un : Int) = v := by injection h
            subst this
            refine ⟨hb, h1, rfl, by
              have : (0 : Int) ≤ (un : Int) := Int.natCast_nonneg un
              linarith, hlt⟩
          · rintro ⟨_, _, h5, _, _⟩
            rw [h5]
            rfl

theorem digitVal_minus : digitVal '-' = none := by decide

theorem digitVal_plus : digitVal '+' = none := by decide

/-- What `strconv.Atoi` accepts: the optionally signed decimal numerals of a value that fits
a 64-bit `int`. -/
theorem Atoi_ok_iff (s : List Char) (v : Int) :
    Atoi s = .ok v ↔ SignedDecimal s v ∧ -(2 ^ 63 : Int) ≤ v ∧ v < 2 ^ 63 := by
  cases s with
  | nil =>
    constructor
    · intro h; cases h
    · rintro ⟨⟨ds, hne, _, h | h | h⟩, _⟩
      · exact absurd h.1.symm hne
      · cases h.1
      · cases h.1
  | cons c cs =>
    rw [Atoi_ok_iff_body]
    by_cases hm : c = '-'
    · subst hm
      simp only [true_or, if_true]
      constructor
      · rintro ⟨h1, h2, h3, h4, h5⟩
        exact ⟨⟨cs, h1, h2, Or.inr (Or.inr ⟨rfl, h3⟩)⟩, h4, h5⟩
      · rintro ⟨⟨ds, hne, hdig, h | h | h⟩, h4, h5⟩
        · exfalso
          have := hdig '-' (by rw [← h.1]; exact List.mem_cons_self _ _)
          rw [digitVal_minus] at this
          cases this
        · exfalso
          have := (List.cons.inj h.1).1
          revert this
          decide
        · have hcs : cs = ds := (List.cons.inj h.1).2
          subst hcs
          exact ⟨hne, hdig, h.2, h4, h5⟩
    · by_cases hp : c = '+'
      · subst hp
        simp only [or_true, if_true]
        rw [if_neg (by decide)]
        constructor
        · rintro ⟨h1, h2, h3, h4, h5⟩
          exact ⟨⟨cs, h1, h2, Or.inr (Or.inl ⟨rfl, h3⟩)⟩, h4, h5⟩
        · rintro ⟨⟨ds, hne, hdig, h | h | h⟩, h4, h5⟩
          · exfalso
            have := hdig '+' (by rw [← h.1]; exact List.mem_cons_self _ _)
            rw [digitVal_plus] at this
            cases this
          · have hcs : cs = ds := (List.cons.inj h.1).2
            subst hcs
            exact ⟨hne, hdig, h.2, h4, h5⟩
          · exfalso
            have := (List.cons.inj h.1).1
            revert this
            decide
      · have hor : ¬ (c = '-' ∨ c = '+') := by
          rintro (h | h)
          · exact hm h
          · exact hp h
        rw [if_neg hor, if_neg hm]
        constructor
        · rintro ⟨h1, h2, h3, h4, h5⟩
          exact ⟨⟨c :: cs, h1, h2, Or.inl ⟨rfl, h3⟩⟩, h4, h5⟩
        · rintro ⟨⟨ds, hne, hdig, h | h | h⟩, h4, h5⟩
          · rw [h.1]
            exact ⟨hne, hdig, h.2, h4, h5⟩
          · exact absurd (List.cons.inj h.1).1 hp
          · exact absurd (List.cons.inj h.1).1 hm

theorem digitChar_toNat (d : Nat) (h : d < 10) : (digitChar d).toNat = 48 + d := by
  interval_cases d <;> rfl

theorem digitVal_digitChar (d : Nat) (h : d < 10) : digitVal (digitChar d) = some d := by
  interval_cases d <;> rfl

theorem decValue_append (n : Nat) (a b : List Char) :
    decValue n (a ++ b) = decValue (decValue n a) b := by
  unfold decValue
  rw [List.foldl_append]

theorem formatUint_spec :
    ∀ (fuel n : Nat), n < 10 ^ (fuel + 1) →
      formatUint (fuel + 1) n ≠ [] ∧
      (∀ c ∈ formatUint (fuel + 1) n, (digitVal c).isSome = true) ∧
      decValue 0 (formatUint (fuel + 1) n) = n := by
  intro fuel
  induction fuel with
  | zero =>
    intro n hn
    have hn10 : n < 10 := by simpa using hn
    unfold formatUint
    rw [if_pos hn10]
    refine ⟨by simp, ?_, ?_⟩
    · intro c hc
      have : c = digitChar n := by simpa using hc
      rw [this, digitVal_digitChar n hn10]; rfl
    · show 0 * 10 + ((digitChar n).toNat - 48) = n
      rw [digitChar_toNat n hn10]
      omega
  | succ fuel ih =>
    intro n hn
    unfold formatUint
    by_cases hn10 : n < 10
    · rw [if_pos hn10]
      refine ⟨by simp, ?_, ?_⟩
      · intro c hc
        have : c = digitChar n := by simpa using hc
        rw [this, digitVal_digitChar n hn10]; rfl
      · show 0 * 10 + ((digitChar n).toNat - 48) = n
        rw [digitChar_toNat n hn10]
        omega
    · rw [if_neg hn10]
      have hdiv : n / 10 < 10 ^ (fuel + 1) := by
        rw [Nat.div_lt_iff_lt_mul (by norm_num)]
        calc n < 10 ^ (fuel + 1 + 1) := hn
          _ = 10 ^ (fuel + 1) * 10 := by ring
      obtain ⟨_, h2, h3⟩ := ih (n / 10) hdiv
      have hmod : n % 10 < 10 := Nat.mod_lt _ (by norm_num)
      refine ⟨by simp, ?_, ?_⟩
      · intro c hc
        rcases List.mem_append.mp hc with h | h
        · exact h2 c h
        · have : c = digitChar (n % 10) := by simpa using h
          rw [this, digitVal_digitChar _ hmod]; rfl
      · rw [decValue_append, h3]
        show n / 10 * 10 + ((digitChar (n % 10)).toNat - 48) = n
        rw [digitChar_toNat _ hmod]
        omega

theorem Itoa_signedDecimal (v : Int) (hlo : -(2 ^ 63 : Int) ≤ v) (hhi : v < 2 ^ 63) :
    SignedDecimal (Itoa v) v := by
  have habs : v.natAbs < 10 ^ (19 + 1) := by
    have : v.natAbs ≤ 2 ^ 63 := by omega
    calc v.natAbs ≤ 2 ^ 63 := this
      _ < 10 ^ (19 + 1) := by norm_num
  obtain ⟨h1, h2, h3⟩ := formatUint_spec 19 v.natAbs habs
  unfold Itoa
  by_cases hneg : v < 0
  · rw [if_pos hneg]
    refine ⟨formatUint 20 v.natAbs, h1, h2, Or.inr (Or.inr ⟨rfl, ?_⟩)⟩
    rw [h3]
    omega
  · rw [if_neg hneg]
    refine ⟨formatUint 20 v.natAbs, h1, h2, Or.inl ⟨rfl, ?_⟩⟩
    rw [h3]
    omega

theorem splitUnderscore_ne_nil (s : List Char) : splitUnderscore s ≠ [] := by
  cases s with
  | nil => simp [splitUnderscore]
  | cons c cs =>
    unfold splitUnderscore
    cases splitUnderscore cs with
    | nil => simp
    | cons p ps =>
      simp only []
      split <;> simp

theorem eq_of_splitUnderscore_one : ∀ (s p : List Char), splitUnderscore s = [p] → s = p := by
  intro s
  induction s with
  | nil =>
    intro p h
    have : [([] : List Char)] = [p] := h
    exact (List.cons.inj this).1
  | cons d ds ih =>
    intro p h
    unfold splitUnderscore at h
    cases hds : splitUnderscore ds with
    | nil => exact absurd hds (splitUnderscore_ne_nil ds)
    | cons q qs =>
      rw [hds] at h
      simp only [] at h
      by_cases hd : d = '_'
      · rw [if_pos hd] at h
        have := (List.cons.inj h).2
        cases this
      · rw [if_neg hd] at h
        have hq : qs = [] := (List.cons.inj h).2
        subst hq
        rw [ih q hds]
        exact (List.cons.inj h).1

theorem eq_of_splitUnderscore : ∀ (key p0 p1 : List Char),
    splitUnderscore key = [p0, p1] → key = p0 ++ '_' :: p1 := by
  intro key
  induction key with
  | nil =>
    intro p0 p1 h
    have : [([] : List Char)] = [p0, p1] := h
    have := (List.cons.inj this).2
    cases this
  | cons c cs ih =>
    intro p0 p1 h
    unfold splitUnderscore at h
    cases hs : splitUnderscore cs with
    | nil => exact absurd hs (splitUnderscore_ne_nil cs)
    | cons p ps =>
      rw [hs] at h
      simp only [] at h
      by_cases hc : c = '_'
      · rw [if_pos hc] at h
        have h0 : [] = p0 := (List.cons.inj h).1
        have h1 : p :: ps = [p1] := (List.cons.inj h).2
        rw [h1] at hs
        rw [← h0, hc, eq_of_splitUnderscore_one cs p1 hs]
        rfl
      · rw [if_neg hc] at h
        have h0 : c :: p = p0 := (List.cons.inj h).1
        have h1 : ps = [p1] := (List.cons.inj h).2
        subst h1
        rw [ih p p1 hs, ← h0]
        rfl

/-- C6 (as the code has it): `getStartMinute` and `getBucket` fail on every key that does not
split into exactly two parts; on a key with two parts `getBucket` succeeds exactly when the
second part is a decimal numeral with an optional sign `+` or `-` whose value fits a 64-bit
`int`, and it returns that value, which is negative for a numeral such as `-3`. -/
theorem getBucket_accepts_signed_decimal (env : Env) (key : List Char) :
    ((splitUnderscore key).length ≠ 2 →
      getStartMinute env key = .error (.invalidFormat key) ∧
      getBucket key = .error (.invalidFormat key)) ∧
    (∀ p0 p1 : List Char, splitUnderscore key = [p0, p1] → ∀ b : Int,
      (getBucket key = .ok b ↔ SignedDecimal p1 b ∧ -(2 ^ 63 : Int) ≤ b ∧ b < 2 ^ 63)) ∧
    (∀ b : Int, getBucket key = .ok b →
      ∃ p0 p1 : List Char, splitUnderscore key = [p0, p1] ∧ SignedDecimal p1 b) := by
  refine ⟨?_, ?_, ?_⟩
  · intro h
    constructor
    · unfold getStartMinute
      split
      · rename_i a b hs
        rw [hs] at h
        simp at h
      · rfl
    · unfold getBucket
      split
      · rename_i a b hs
        rw [hs] at h
        simp at h
      · rfl
  · intro p0 p1 hs b
    unfold getBucket
    rw [hs]
    exact Atoi_ok_iff p1 b
  · intro b hb
    unfold getBucket at hb
    split at hb
    · rename_i a p1 hs
      exact ⟨a, p1, hs, ((Atoi_ok_iff p1 b).mp hb).1⟩
    · cases hb

theorem getBucket_accepts_signed_decimal_witness :
    (getStartMinute (envOk 10 []) "120".toList = .error (.invalidFormat "120".toList) ∧
      getBucket "120".toList = .error (.invalidFormat "120".toList)) ∧
    (getBucket "120_-3".toList = .ok (-3) ↔
      SignedDecimal "-3".toList (-3) ∧ -(2 ^ 63 : Int) ≤ -3 ∧ (-3 : Int) < 2 ^ 63) ∧
    (∃ p0 p1 : List Char, splitUnderscore "120_+07".toList = [p0, p1] ∧ SignedDecimal p1 7) :=
  ⟨(getBucket_accepts_signed_decimal (envOk 10 []) "120".toList).1 (by decide),
   (getBucket_accepts_signed_decimal (envOk 10 []) "120_-3".toList).2.1 "120".toList "-3".toList
      (by decide) (-3),
   (getBucket_accepts_signed_decimal (envOk 10 []) "120_+07".toList).2.2 7 (by decide)⟩

/-- C6 fails as stated: the second part of the key `120_-3` is not a non-negative integer, yet
`getBucket` succeeds on it, and the bucket index it returns is below zero. -/
theorem getBucket_negative_counterexample :
    getBucket "120_-3".toList = .ok (-3) ∧ ¬ ((0 : Int) ≤ -3) := by
  decide

/-- C7 (as the code has it): a key with two parts whose second part is the decimal rendering
of a 64-bit integer `v` round-trips: `getBucket` returns `v`, rendering what `getBucket`
returns gives back the second part character for character, and when the rendering of the
parsed minute gives back the first part, the key encoded again is the original key. -/
theorem key_roundtrip_canonical (env : Env) (fmt : Time → List Char) (key p0 p1 : List Char)
    (v : Int) (hs : splitUnderscore key = [p0, p1])
    (hlo : -(2 ^ 63 : Int) ≤ v) (hhi : v < 2 ^ 63) (hp1 : p1 = Itoa v) :
    getBucket key = .ok v ∧ (∀ b, getBucket key = .ok b → Itoa b = p1) ∧
      (∀ m, getStartMinute env key = .ok m → fmt m = p0 → encodeKey fmt m v = key) := by
  have hb : getBucket key = .ok v := by
    unfold getBucket
    rw [hs, hp1]
    exact (Atoi_ok_iff (Itoa v) v).mpr ⟨Itoa_signedDecimal v hlo hhi, hlo, hhi⟩
  refine ⟨hb, ?_, ?_⟩
  · intro b hb2
    rw [hb] at hb2
    have : v = b := by injection hb2
    rw [← this, hp1]
  · intro m _ hfmt
    unfold encodeKey
    rw [hfmt, ← hp1]
    exact (eq_of_splitUnderscore key p0 p1 hs).symm

theorem key_roundtrip_canonical_witness :
    getBucket "1700000040_-45".toList = .ok (-45) ∧
      Itoa (-45) = "-45".toList ∧
      encodeKey Itoa 1700000040 (-45) = "1700000040_-45".toList :=
  ⟨(key_roundtrip_canonical (envOk 10 []) Itoa "1700000040_-45".toList "1700000040".toList
      "-45".toList (-45) (by decide) (by decide) (by decide) (by decide)).1,
   (key_roundtrip_canonical (envOk 10 []) Itoa "1700000040_-45".toList "1700000040".toList
      "-45".toList (-45) (by decide) (by decide) (by decide) (by decide)).2.1 (-45) (by decide),
   (key_roundtrip_canonical (envOk 10 []) Itoa "1700000040_-45".toList "1700000040".toList
      "-45".toList (-45) (by decide) (by decide) (by decide) (by decide)).2.2 1700000040
      (by decide) (by decide)⟩

/-- C7 fails as stated: `getBucket` accepts the keys `120_007`, `120_+3` and `120_-0`, and
the decimal rendering of the integer it returns differs from the second part of the key, so
the key encoded again is not the original key; the keys `120_007` and `120_7` are both
accepted with the same bucket index 7, so no rendering of the index gives back both. -/
theorem key_roundtrip_counterexample :
    getBucket "120_007".toList = .ok 7 ∧ Itoa 7 ≠ "007".toList ∧
    getBucket "120_7".toList = .ok 7 ∧
    getStartMinute (envOk 10 []) "120_007".toList = .ok 120 ∧
    encodeKey Itoa 120 7 ≠ "120_007".toList ∧
    getBucket "120_+3".toList = .ok 3 ∧ Itoa 3 ≠ "+3".toList ∧
    getBucket "120_-0".toList = .ok 0 ∧ Itoa 0 ≠ "-0".toList := by
  decide

end Trigger
